import Mathlib

/-!
Verification development for the difftron coverage-analysis core.

The Go sources are shallowly embedded: Go maps become association lists
(iteration order = list order, matching one fixed iteration of Go's
nondeterministic map ranging where the results are order-independent),
Go `int` becomes `Int`, Go `float64` arithmetic on percentages is modelled
by exact rationals `ℚ` (all operations used are +, -, *, / and order
comparisons, whose claim-relevant structure is identical), text inputs
arrive already split into lines (modelling `bufio.Scanner`), and the two
I/O touchpoints (the memoized git repository root and `os.Stat` during
Cobertura source resolution) are explicit parameters.  Strings are
treated per character; the Go code slices byte-wise, which coincides on
the ASCII inputs these formats consist of.
-/

namespace Difftron

/-! ### Small Go string/list helpers

The Go string functions are re-implemented by structural recursion over
the character list of a `String` (the standard library versions walk
byte positions with well-founded recursion, which the kernel cannot
evaluate; the semantics on the ASCII data of these formats is the
same). -/

/-- Go `strings.HasPrefix`. -/
def startsWithS (s pre : String) : Bool :=
  pre.toList.isPrefixOf s.toList

/-- Drop the first `n` characters. -/
def dropS (s : String) (n : Nat) : String :=
  ⟨s.toList.drop n⟩

/-- Keep the first `n` characters (Go's `content[:1000]` slicing). -/
def takeS (s : String) (n : Nat) : String :=
  ⟨s.toList.take n⟩

/-- Go `strings.TrimSpace`. -/
def trimS (s : String) : String :=
  ⟨((s.toList.dropWhile Char.isWhitespace).reverse.dropWhile Char.isWhitespace).reverse⟩

/-- Go `strings.TrimPrefix`. -/
def trimPrefixS (s pre : String) : String :=
  if startsWithS s pre then dropS s pre.toList.length else s

/-- Split at every character satisfying `p` (helper for `goFields`). -/
def splitCharsAux (p : Char → Bool) : List Char → List Char → List (List Char)
  | [], acc => [acc.reverse]
  | c :: cs, acc =>
    if p c then acc.reverse :: splitCharsAux p cs []
    else splitCharsAux p cs (c :: acc)

/-- Go `strings.Fields`: split around runs of whitespace. -/
def goFields (s : String) : List String :=
  ((splitCharsAux Char.isWhitespace s.toList []).map String.mk).filter (fun t => t ≠ "")

/-- Left-to-right non-overlapping split on a non-empty separator; the
fuel argument only bounds the recursion and is passed in larger than
the list length. -/
def splitOnAux (sep : List Char) : Nat → List Char → List Char → List (List Char)
  | 0, cs, acc => [acc.reverse ++ cs]
  | Nat.succ _, [], acc => [acc.reverse]
  | Nat.succ n, c :: cs, acc =>
    if sep.isPrefixOf (c :: cs) then
      acc.reverse :: splitOnAux sep n ((c :: cs).drop sep.length) []
    else splitOnAux sep n cs (c :: acc)

/-- Go `strings.Split` (for the non-empty separators used here). -/
def splitOnS (s sep : String) : List String :=
  if sep = "" then [s]
  else (splitOnAux sep.toList (s.toList.length + 1) s.toList []).map String.mk

/-- Go `strings.Join` / re-joining the pieces around a separator. -/
def intercalateS (sep : String) : List String → String
  | [] => ""
  | p :: rest => rest.foldl (fun acc x => acc ++ sep ++ x) p

/-- Digit-string value for `goAtoi`; `none` unless the string is one or
more decimal digits. -/
def digitsVal (cs : List Char) : Option Int :=
  if cs = [] then none
  else if cs.all (fun c => c.isDigit) then
    some (cs.foldl (fun a c => a * 10 + ((c.toNat - '0'.toNat : Nat) : Int)) 0)
  else none

/-- Go `strconv.Atoi`: optional sign followed by digits.  (The range
error on numbers exceeding 64 bits is not modelled.) -/
def goAtoi (s : String) : Option Int :=
  match s.toList with
  | '+' :: rest => digitsVal rest
  | '-' :: rest => (digitsVal rest).map (fun n => -n)
  | cs => digitsVal cs

/-- Go `strings.Contains`. -/
def containsStr (s sub : String) : Bool :=
  s.toList.tails.any (fun t => sub.toList.isPrefixOf t)

/-- The inclusive integer range `[a, b]` walked by Go's
`for line := a; line <= b; line++`. -/
def intRange (a b : Int) : List Int :=
  (List.range (b + 1 - a).toNat).map (fun i => a + (i : Int))

/-- Association-list update modelling assignment into a Go map:
replace the existing binding, else append a fresh one. -/
def updA {κ α : Type} [BEq κ] : List (κ × α) → κ → α → List (κ × α)
  | [], k, v => [(k, v)]
  | p :: rest, k, v =>
    if p.1 == k then (k, v) :: rest else p :: updA rest k v

/-- Association-list lookup modelling a Go map read with `ok` flag. -/
def findA {κ α : Type} [BEq κ] (m : List (κ × α)) (k : κ) : Option α :=
  (m.find? (fun p => p.1 == k)).map (fun p => p.2)

/-! ### Coverage data model (internal/coverage/lcov.go) -/

/-- The per-file `line → hitCount` Go map. -/
abbrev LineHits := List (Int × Int)

/-- Go map read `LineHits[k]` (zero value 0 when absent). -/
def lookupHit (m : LineHits) (k : Int) : Int :=
  match findA m k with
  | some v => v
  | none => 0

/-- Go `_, exists := LineHits[k]`. -/
def hasLine (m : LineHits) (k : Int) : Bool :=
  (findA m k).isSome

/-- Go map write `LineHits[k] = v`. -/
def setHit (m : LineHits) (k v : Int) : LineHits :=
  updA m k v

/-- CoverageData represents coverage information for a file. -/
structure CoverageData where
  lineHits : LineHits := []
  totalLines : Int := 0
  coveredLines : Int := 0
deriving Repr, DecidableEq

/-- Report contains coverage data for multiple files. -/
structure Report where
  fileCoverage : List (String × CoverageData) := []
deriving Repr, DecidableEq

/-- `Report.GetCoverageForFile` (nil pointer becomes `none`). -/
def getCoverageForFile (r : Report) (f : String) : Option CoverageData :=
  findA r.fileCoverage f

/-- Go map write `report.FileCoverage[f] = d`. -/
def setFile (r : Report) (f : String) (d : CoverageData) : Report :=
  ⟨updA r.fileCoverage f d⟩

/-- Update the record a Go pointer into the report would mutate;
no-op when the file is absent (the Go code only mutates existing
entries through such pointers). -/
def modFile (r : Report) (f : String) (g : CoverageData → CoverageData) : Report :=
  match findA r.fileCoverage f with
  | some d => setFile r f (g d)
  | none => r

/-- `Report.GetCoverageForLine`: 0 when file or line is absent. -/
def getCoverageForLine (r : Report) (f : String) (l : Int) : Int :=
  match getCoverageForFile r f with
  | none => 0
  | some d => lookupHit d.lineHits l

/-- `Report.IsLineCovered`: hits > 0. -/
def isLineCovered (r : Report) (f : String) (l : Int) : Bool :=
  getCoverageForLine r f l > 0


/-- `NormalizePath` from internal/coverage/lcov.go.  The memoized
repository root (`getRepoRoot`, a git subprocess) is passed in
explicitly; `filepath.ToSlash` is the identity and `filepath.IsAbs`
is a leading `/` on the Unix build modelled here. -/
def NormalizePath (repoRoot path : String) : String :=
  if path = "" then path
  else
    let normalized := path
    let normalized := trimPrefixS normalized "./"
    if startsWithS path "/" then
      if repoRoot ≠ "" then
        if startsWithS normalized (repoRoot ++ "/") then
          trimPrefixS normalized (repoRoot ++ "/")
        else if normalized = repoRoot then ""
        else trimPrefixS normalized "/"
      else trimPrefixS normalized "/"
    else trimPrefixS normalized "/"

/-- The repeated lookup idiom "exact path first, then the normalized
path" of analyzer.go and health/analyzer.go. -/
def resolveRecord (r : Report) (repoRoot filePath : String) : Option CoverageData :=
  match getCoverageForFile r filePath with
  | some d => some d
  | none => getCoverageForFile r (NormalizePath repoRoot filePath)

/-! ### Diff hunk parser (internal/hunk/parser.go) -/

/-- ParseResult contains the parsed diff information.  The Go
`map[string]map[int]bool` sets become association lists of
line-number lists (each list duplicate-free by construction). -/
structure ParseResult where
  changedLines : List (String × List Int) := []
  addedLines : List (String × List Int) := []
  removedLines : List (String × List Int) := []
  newFiles : List String := []
  modifiedFiles : List String := []
deriving Repr, DecidableEq

/-- Read a file's line set (Go inner-map, empty when absent). -/
def getLines (m : List (String × List Int)) (f : String) : List Int :=
  match findA m f with
  | some v => v
  | none => []

/-- Go `result.X[file][line] = true`: set-insert into the file's set. -/
def markLine (m : List (String × List Int)) (f : String) (l : Int) :
    List (String × List Int) :=
  let s := getLines m f
  updA m f (if l ∈ s then s else s ++ [l])

/-- Go `set[f] = true` on a `map[string]bool`. -/
def addToSet (s : List String) (f : String) : List String :=
  if f ∈ s then s else s ++ [f]

/-- Scanner state of `ParseGitDiff`: the accumulated result plus the
local variables `currentFile`, `currentFileOldPath`, `currentLine`. -/
structure PState where
  result : ParseResult := {}
  currentFile : String := ""
  currentFileOldPath : String := ""
  currentLine : Int := 0
deriving Repr, DecidableEq

/-- One iteration of `ParseGitDiff`'s scan loop. -/
def processLine (st : PState) (line : String) : Except String PState :=
  if startsWithS line "--- a/" then
    .ok { st with currentFileOldPath := trimPrefixS line "--- a/" }
  else if startsWithS line "+++ b/" then
    let currentFile := trimPrefixS line "+++ b/"
    if currentFile = "/dev/null" then
      -- File was deleted, skip
      .ok { st with currentFile := "", currentFileOldPath := "" }
    else
      let res := st.result
      let res := { res with
        changedLines := updA res.changedLines currentFile [],
        addedLines := updA res.addedLines currentFile [],
        removedLines := updA res.removedLines currentFile [] }
      let res :=
        if st.currentFileOldPath = "/dev/null" ∨ st.currentFileOldPath = "" then
          { res with newFiles := addToSet res.newFiles currentFile }
        else
          { res with modifiedFiles := addToSet res.modifiedFiles currentFile }
      .ok { st with result := res, currentFile := currentFile, currentFileOldPath := "" }
  else if startsWithS line "@@" then
    match goFields line with
    | _ :: _ :: newFilePart :: _ =>
      if !startsWithS newFilePart "+" then .ok st
      else
        let trimmed := trimPrefixS newFilePart "+"
        let lineParts := splitOnS trimmed ","
        match goAtoi (lineParts.headD "") with
        | none => .error "failed to parse line number in hunk header"
        | some startLine => .ok { st with currentLine := startLine - 1 }
    | _ => .ok st
  else if st.currentFile = "" then .ok st
  else if startsWithS line "+" && !startsWithS line "+++" then
    let newLine := st.currentLine + 1
    .ok { st with
      currentLine := newLine,
      result := { st.result with
        changedLines := markLine st.result.changedLines st.currentFile newLine,
        addedLines := markLine st.result.addedLines st.currentFile newLine } }
  else if startsWithS line "-" && !startsWithS line "---" then
    -- Removed line: don't advance currentLine, record nothing
    .ok st
  else if startsWithS line " " || (!startsWithS line "+" && !startsWithS line "-") then
    .ok { st with currentLine := st.currentLine + 1 }
  else
    .ok st

/-- `ParseGitDiff` over the scanner's line sequence. -/
def ParseGitDiff (lines : List String) : Except String ParseResult := do
  let st ← lines.foldlM processLine {}
  return st.result

/-! ### LCOV parser (internal/coverage/lcov.go, ParseLCOV) -/

/-- Local state of `ParseLCOV`'s scan: the report under construction,
`currentFile`, and whether `currentCoverage` is a live pointer. -/
structure LcovState where
  report : Report := {}
  currentFile : String := ""
  hasCurrent : Bool := false
deriving Repr, DecidableEq

/-- One iteration of `ParseLCOV`'s scan loop. -/
def lcovLine (st : LcovState) (raw : String) : LcovState :=
  let line := trimS raw
  if line = "" then st
  else if startsWithS line "SF:" then
    let f := dropS line 3
    { report := setFile st.report f {}, currentFile := f, hasCurrent := true }
  else if st.currentFile = "" || !st.hasCurrent then st
  else if startsWithS line "DA:" then
    let data := trimPrefixS line "DA:"
    let parts := splitOnS data ","
    if parts.length ≠ 2 then st
    else
      match goAtoi (parts.headD ""), goAtoi (parts.getD 1 "") with
      | some lineNum, some hits =>
        { st with report := modFile st.report st.currentFile (fun d =>
            { lineHits := setHit d.lineHits lineNum hits,
              totalLines := d.totalLines + 1,
              coveredLines := if hits > 0 then d.coveredLines + 1 else d.coveredLines }) }
      | _, _ => st
  else if line = "end_of_record" then
    { st with currentFile := "", hasCurrent := false }
  else st

/-- `ParseLCOV` over the scanner's line sequence.  (The Go error return
is only for scanner I/O failures, which the embedding has none of.) -/
def ParseLCOV (lines : List String) : Report :=
  (lines.foldl lcovLine {}).report

/-! ### Cobertura parser (internal/coverage/cobertura.go) -/

/-- A `<line number=.. hits=..>` element (attributes the parser reads). -/
structure CobLine where
  number : Int
  hits : Int
deriving Repr, DecidableEq

/-- A `<method>` element (only its lines are read). -/
structure CobMethod where
  lines : List CobLine
deriving Repr, DecidableEq

/-- A `<class>` element (attributes the parser reads). -/
structure CobClass where
  filename : String
  methods : List CobMethod
  lines : List CobLine
deriving Repr, DecidableEq

/-- A `<package>` element (only its classes are read). -/
structure CobPackage where
  classes : List CobClass
deriving Repr, DecidableEq

/-- The decoded `<coverage>` document (fields the parser reads; the
rate/total attributes are decoded but never used). -/
structure CobCoverage where
  sources : List String
  packages : List CobPackage
deriving Repr, DecidableEq

/-- Go `filepath.Join` on Unix.  (Go additionally cleans the joined
path; the cleaning is irrelevant to the accounting claims proved
here.) -/
def joinPath (a b : String) : String :=
  if a = "" then b else a ++ "/" ++ b

/-- The source-path loop of `resolveFilePath`; `stat` is the
`os.Stat`-succeeds oracle. -/
def resolveLoop (stat : String → Bool) (sps : List String) (filename : String) : String :=
  match sps with
  | [] => filename
  | sp :: rest =>
    let fullPath := joinPath sp filename
    if stat fullPath then fullPath
    else
      -- strings.ReplaceAll(path, "\\", "/"): single-character replacement
      let fullPath2 : String := ⟨(joinPath sp filename).toList.map (fun c => if c = '\\' then '/' else c)⟩
      if stat fullPath2 then fullPath2
      else resolveLoop stat rest filename

/-- `resolveFilePath`: bare name, then root-joined existence check,
then bare-name fallback. -/
def resolveFilePath (stat : String → Bool) (sourcePaths : List String)
    (filename : String) : String :=
  if filename ∈ sourcePaths then filename
  else resolveLoop stat sourcePaths filename

/-- Record one Cobertura `<line>`: class-level data overwrites,
method-level data fills gaps only. -/
def cobAddLine (classLevel : Bool) (d : CoverageData) (ln : CobLine) : CoverageData :=
  if classLevel || !hasLine d.lineHits ln.number then
    { lineHits := setHit d.lineHits ln.number ln.hits,
      totalLines := d.totalLines + 1,
      coveredLines := if ln.hits > 0 then d.coveredLines + 1 else d.coveredLines }
  else d

/-- Merge one `<class>` into the report. -/
def cobAddClass (stat : String → Bool) (repoRoot : String) (sourcePaths : List String)
    (rep : Report) (cls : CobClass) : Report :=
  let fp := NormalizePath repoRoot (resolveFilePath stat sourcePaths cls.filename)
  let d := (getCoverageForFile rep fp).getD {}
  let d := cls.lines.foldl (cobAddLine true) d
  let d := cls.methods.foldl (fun d m => m.lines.foldl (cobAddLine false) d) d
  setFile rep fp d

/-- `ParseCobertura` after XML decoding (the `encoding/xml` layer is
out of the embedding; its output structure is the input here). -/
def ParseCobertura (stat : String → Bool) (repoRoot : String)
    (cob : CobCoverage) : Report :=
  cob.packages.foldl (fun rep pkg => pkg.classes.foldl (cobAddClass stat repoRoot cob.sources) rep) {}

/-! ### Tool-native Go coverage parser (internal/coverage/gocov.go) -/

/-- `normalizeGoFilePath`: strip the module prefixes
(`filepath.ToSlash` is the identity on the Unix build). -/
def normalizeGoFilePath (filePath : String) : String :=
  if startsWithS filePath "github.com/swantron/difftron/" then
    trimPrefixS filePath "github.com/swantron/difftron/"
  else if startsWithS filePath "github.com\\swantron\\difftron\\" then
    trimPrefixS filePath "github.com\\swantron\\difftron\\"
  else filePath

/-- Local state of `parseGoCoverageText`'s scan. -/
structure GoCovState where
  report : Report := {}
  mode : String := ""
deriving Repr, DecidableEq

/-- Record one line of a range record: `wasAlreadySeen` is probed
before the hit update, exactly as in the Go loop body. -/
def goCovMarkLine (count : Int) (d : CoverageData) (ln : Int) : CoverageData :=
  let wasAlreadySeen := lookupHit d.lineHits ln > 0
  let d :=
    if count > 0 then
      if hasLine d.lineHits ln then
        if count > lookupHit d.lineHits ln then
          { d with lineHits := setHit d.lineHits ln count }
        else d
      else
        { d with lineHits := setHit d.lineHits ln count,
                 coveredLines := d.coveredLines + 1 }
    else d
  if !wasAlreadySeen then { d with totalLines := d.totalLines + 1 } else d

/-- One iteration of `parseGoCoverageText`'s scan loop. -/
def goCovLine (st : GoCovState) (raw : String) : GoCovState :=
  let line := trimS raw
  if line = "" then st
  else if startsWithS line "mode:" then
    { st with mode := trimS (trimPrefixS line "mode:") }
  else
    match goFields line with
    | fileAndRange :: countStr :: _ =>
      -- strings.LastIndex(fileAndRange, ":")
      let segs := splitOnS fileAndRange ":"
      if segs.length < 2 then st
      else
        let filePath := intercalateS ":" segs.dropLast
        let rangeStr := segs.getLastD ""
        -- strings.Index(rangeStr, ",")
        let rparts := splitOnS rangeStr ","
        if rparts.length < 2 then st
        else
          let startStr := rparts.headD ""
          let endStr := intercalateS "," rparts.tail
          -- strip the column numbers after the first "."
          let startStr := (splitOnS startStr ".").headD ""
          let endStr := (splitOnS endStr ".").headD ""
          match goAtoi startStr, goAtoi endStr, goAtoi countStr with
          | some startLine, some endLine, some count =>
            let fp := normalizeGoFilePath filePath
            let d := (getCoverageForFile st.report fp).getD {}
            let d := (intRange startLine endLine).foldl (goCovMarkLine count) d
            { st with report := setFile st.report fp d }
          | _, _, _ => st
    | _ => st

/-- `parseGoCoverageText` over the scanner's line sequence. -/
def parseGoCoverageText (lines : List String) : Except String Report :=
  let st := lines.foldl goCovLine {}
  if st.mode = "" ∧ st.report.fileCoverage.isEmpty then
    .error "not a valid Go coverage text format (no mode line found)"
  else .ok st.report

/-! ### Format detector (internal/coverage/gocov.go, DetectCoverageFormat) -/

/-- Go `filepath.Ext`: the suffix from the final dot of the final
path element. -/
def filepathExt (p : String) : String :=
  let base := (splitOnS p "/").getLastD ""
  let segs := splitOnS base "."
  if segs.length ≤ 1 then "" else "." ++ segs.getLastD ""

/-- `DetectCoverageFormat` on a file's content (the `os.ReadFile` is
out of the embedding).  The inner `mode:` re-check inside the `.out`
branch of the Go code is unreachable (the earlier branch already
returned) and collapses away. -/
def DetectCoverageFormat (filePath data : String) : String :=
  let content := takeS data 1000
  let trimmed := trimS content
  if (startsWithS trimmed "<?xml" || containsStr content "<coverage")
      && (containsStr content "cobertura" || containsStr content "coverage")
      && (containsStr content "<package" || containsStr content "<class") then
    "cobertura"
  else if startsWithS trimmed "TN:" || startsWithS trimmed "SF:"
      || (containsStr content "SF:" && containsStr content "DA:") then
    "lcov"
  else if startsWithS trimmed "mode:" then "go"
  else if filepathExt filePath = ".out"
      && !containsStr content "SF:" && !containsStr content "TN:" then
    "go"
  else "lcov"

/-! ### Change analyzer (internal/analyzer/analyzer.go) -/

/-- FileResult contains analysis results for a single file. -/
structure FileResult where
  filePath : String := ""
  totalChangedLines : Int := 0
  coveredLines : Int := 0
  uncoveredLines : Int := 0
  coveragePercentage : ℚ := 0
  uncoveredLineNumbers : List Int := []
  coveredLineNumbers : List Int := []
  isNewFile : Bool := false
  baselineCoveragePercentage : ℚ := 0
deriving Repr

/-- FileTypeMetrics tracks coverage metrics for new or modified files. -/
structure FileTypeMetrics where
  totalChangedLines : Int := 0
  coveredLines : Int := 0
  uncoveredLines : Int := 0
  coveragePercentage : ℚ := 0
  fileCount : Int := 0
deriving Repr

/-- AnalysisResult contains the results of analyzing a diff against coverage. -/
structure AnalysisResult where
  totalChangedLines : Int := 0
  coveredLines : Int := 0
  uncoveredLines : Int := 0
  coveragePercentage : ℚ := 0
  fileResults : List (String × FileResult) := []
  newFileMetrics : FileTypeMetrics := {}
  modifiedFileMetrics : FileTypeMetrics := {}
deriving Repr

/-- The changed-lines loop body of `analyzeFile`. -/
def analyzeFileStep (coverageReport : Report) (filePath normalizedPath : String)
    (haveCoverage : Bool) (fr : FileResult) (lineNum : Int) : FileResult :=
  let fr := { fr with totalChangedLines := fr.totalChangedLines + 1 }
  let isCovered :=
    haveCoverage &&
      (isLineCovered coverageReport filePath lineNum
        || isLineCovered coverageReport normalizedPath lineNum)
  if isCovered then
    { fr with coveredLines := fr.coveredLines + 1,
              coveredLineNumbers := fr.coveredLineNumbers ++ [lineNum] }
  else
    { fr with uncoveredLines := fr.uncoveredLines + 1,
              uncoveredLineNumbers := fr.uncoveredLineNumbers ++ [lineNum] }

/-- The baseline block of `analyzeFile`: compute, for a modified file
whose record resolves in the baseline, the baseline coverage
percentage over the same changed-line set. -/
def analyzeFileBaselinePct (repoRoot filePath : String) (changedLines : List Int)
    (baselineReport : Option Report) (isNewFile : Bool) (fr : FileResult) : FileResult :=
  if !isNewFile then
    match baselineReport with
    | some b =>
      match resolveRecord b repoRoot filePath with
      | some _ =>
        let baselineCovered : Int :=
          ((changedLines.filter (fun lineNum =>
            isLineCovered b filePath lineNum
              || isLineCovered b (NormalizePath repoRoot filePath) lineNum)).length : Int)
        let baselineTotal : Int := (changedLines.length : Int)
        if baselineTotal > 0 then
          { fr with baselineCoveragePercentage :=
              (baselineCovered : ℚ) / (baselineTotal : ℚ) * 100 }
        else fr
      | none => fr
    | none => fr
  else fr

/-- `analyzeFile`: coverage analysis for a single file. -/
def analyzeFile (repoRoot filePath : String) (changedLines : List Int)
    (coverageReport : Report) (baselineReport : Option Report)
    (isNewFile : Bool) : FileResult :=
  let normalizedPath := NormalizePath repoRoot filePath
  let fileCoverage := resolveRecord coverageReport repoRoot filePath
  let fr : FileResult := { filePath := filePath, isNewFile := isNewFile }
  -- Baseline coverage percentage over the same changed-line set
  let fr := analyzeFileBaselinePct repoRoot filePath changedLines baselineReport isNewFile fr
  -- Process each changed line
  let fr := changedLines.foldl
    (analyzeFileStep coverageReport filePath normalizedPath fileCoverage.isSome) fr
  if fr.totalChangedLines > 0 then
    { fr with coveragePercentage :=
        (fr.coveredLines : ℚ) / (fr.totalChangedLines : ℚ) * 100 }
  else fr

/-- Add one file's figures into a FileTypeMetrics. -/
def bumpMetrics (m : FileTypeMetrics) (fr : FileResult) : FileTypeMetrics :=
  { m with totalChangedLines := m.totalChangedLines + fr.totalChangedLines,
           coveredLines := m.coveredLines + fr.coveredLines,
           uncoveredLines := m.uncoveredLines + fr.uncoveredLines,
           fileCount := m.fileCount + 1 }

/-- The per-file loop body of `AnalyzeWithBaseline`. -/
def analyzeLoop (repoRoot : String) (diff : ParseResult) (cov : Report)
    (baselineReport : Option Report) (result : AnalysisResult)
    (e : String × List Int) : AnalysisResult :=
  let isNewFile := e.1 ∈ diff.newFiles
  let fileResult := analyzeFile repoRoot e.1 e.2 cov baselineReport isNewFile
  let result := { result with
    fileResults := updA result.fileResults e.1 fileResult,
    totalChangedLines := result.totalChangedLines + fileResult.totalChangedLines,
    coveredLines := result.coveredLines + fileResult.coveredLines,
    uncoveredLines := result.uncoveredLines + fileResult.uncoveredLines }
  if isNewFile then
    { result with newFileMetrics := bumpMetrics result.newFileMetrics fileResult }
  else
    { result with modifiedFileMetrics := bumpMetrics result.modifiedFileMetrics fileResult }

/-- The guarded percentage calculations at the end of
`AnalyzeWithBaseline`. -/
def finalizePercentages (result : AnalysisResult) : AnalysisResult :=
  let result :=
    if result.totalChangedLines > 0 then
      { result with coveragePercentage :=
          (result.coveredLines : ℚ) / (result.totalChangedLines : ℚ) * 100 }
    else result
  let result :=
    if result.newFileMetrics.totalChangedLines > 0 then
      { result with newFileMetrics := { result.newFileMetrics with
          coveragePercentage := (result.newFileMetrics.coveredLines : ℚ)
            / (result.newFileMetrics.totalChangedLines : ℚ) * 100 } }
    else result
  if result.modifiedFileMetrics.totalChangedLines > 0 then
    { result with modifiedFileMetrics := { result.modifiedFileMetrics with
        coveragePercentage := (result.modifiedFileMetrics.coveredLines : ℚ)
          / (result.modifiedFileMetrics.totalChangedLines : ℚ) * 100 } }
  else result

/-- `AnalyzeWithBaseline`; the two nil-able pointers become `Option`s. -/
def AnalyzeWithBaseline (repoRoot : String) (diffResult : Option ParseResult)
    (coverageReport : Option Report) (baselineReport : Option Report) :
    Except String AnalysisResult :=
  match diffResult with
  | none => .error "diff result cannot be nil"
  | some diff =>
    match coverageReport with
    | none => .error "coverage report cannot be nil"
    | some cov =>
      let result := diff.changedLines.foldl (analyzeLoop repoRoot diff cov baselineReport) {}
      .ok (finalizePercentages result)

/-- `Analyze` delegates to `AnalyzeWithBaseline` with no baseline. -/
def Analyze (repoRoot : String) (diffResult : Option ParseResult)
    (coverageReport : Option Report) : Except String AnalysisResult :=
  AnalyzeWithBaseline repoRoot diffResult coverageReport none

/-- `AnalysisResult.MeetsThreshold`. -/
def MeetsThreshold (r : AnalysisResult) (threshold : ℚ) : Bool :=
  r.coveragePercentage ≥ threshold

/-! ### Health aggregator (internal/health/analyzer.go) -/

/-- TestType represents different types of tests. -/
inductive TestType where
  | unit
  | api
  | functional
  | integration
  | e2e
deriving Repr, DecidableEq

/-- TestCoverageReport: coverage from a specific test type.  (The
`TestCount`, `Duration` and `Source` metadata fields are never read by
the aggregation and analysis functions and are omitted.) -/
structure TestCoverageReport where
  testType : TestType
  coverageReport : Option Report := none
deriving Repr, DecidableEq

/-- FileHealth: health metrics for a single file. -/
structure FileHealth where
  filePath : String := ""
  totalLines : Int := 0
  coveredLines : Int := 0
  uncoveredLines : Int := 0
  coveragePercentage : ℚ := 0
  unitTestCoverage : ℚ := 0
  apiTestCoverage : ℚ := 0
  functionalTestCoverage : ℚ := 0
  changedLines : Int := 0
  changedCoveredLines : Int := 0
  changedUncoveredLines : Int := 0
  changedCoveragePercentage : ℚ := 0
  baselineCoveragePercentage : ℚ := 0
  coverageDelta : ℚ := 0
  changedLinesCoveredByUnit : Int := 0
  changedLinesCoveredByAPI : Int := 0
  changedLinesCoveredByFunctional : Int := 0
  isNewFile : Bool := false
  hasRegression : Bool := false
  needsAttention : Bool := false
/-- Insight entity (the `fmt.Sprintf`-formatted message strings are
modelled by their fixed leading label only). -/
structure Insight where
  type : String := ""
  category : String := ""
  title : String := ""
  file : String := ""
  lineNumbers : List Int := []
  severity : String := ""
/-- Recommendation entity. -/
structure Recommendation where
  priority : String := ""
  category : String := ""
  title : String := ""
  action : String := ""
  files : List String := []
  testType : TestType := .unit
/-- HealthReport: the comprehensive health view. -/
structure HealthReport where
  totalFiles : Int := 0
  totalLines : Int := 0
  totalCoveredLines : Int := 0
  totalUncoveredLines : Int := 0
  overallCoverage : ℚ := 0
  changedFiles : Int := 0
  changedLines : Int := 0
  changedCoveredLines : Int := 0
  changedUncoveredLines : Int := 0
  changedCoverage : ℚ := 0
  unitTestCoverage : ℚ := 0
  apiTestCoverage : ℚ := 0
  functionalTestCoverage : ℚ := 0
  fileHealth : List (String × FileHealth) := []
  newFilesCount : Int := 0
  modifiedFilesCount : Int := 0
  newFilesCoverage : ℚ := 0
  modifiedFilesCoverage : ℚ := 0
  healthyFiles : Int := 0
  atRiskFiles : Int := 0
  regressingFiles : Int := 0
  insights : List Insight := []
  recommendations : List Recommendation := []
/-- The per-line merge of `AggregateCoverage`: take the maximum hit
count across test types. -/
def mergeLineHit (agg : CoverageData) (p : Int × Int) : CoverageData :=
  let currentHits := lookupHit agg.lineHits p.1
  if p.2 > currentHits then { agg with lineHits := setHit agg.lineHits p.1 p.2 }
  else agg

/-- Number of lines with hits > 0 in a merged map (the recount loop of
`AggregateCoverage`). -/
def countCovered (m : LineHits) : Int :=
  ((m.filter (fun p => p.2 > 0)).length : Int)

/-- Merge one suite's record for a file into the aggregated record:
max the line hits, take this suite's `TotalLines`, recount
`CoveredLines`. -/
def mergeFileCoverage (agg fc : CoverageData) : CoverageData :=
  let agg := fc.lineHits.foldl mergeLineHit agg
  { agg with totalLines := fc.totalLines, coveredLines := countCovered agg.lineHits }

/-- Merge one suite into the aggregated report. -/
def aggregateOne (agg : Report) (testReport : TestCoverageReport) : Report :=
  match testReport.coverageReport with
  | none => agg
  | some rep =>
    rep.fileCoverage.foldl (fun agg q =>
      let aggFc := (getCoverageForFile agg q.1).getD {}
      setFile agg q.1 (mergeFileCoverage aggFc q.2)) agg

/-- `AggregateCoverage`: lines are covered if ANY test type covers
them.  (The Go error return is always nil.) -/
def AggregateCoverage (reports : List TestCoverageReport) : Report :=
  reports.foldl aggregateOne {}

/-- The inner test-type tagging loop of `analyzeFileHealth` for one
covered changed line. -/
def tagTestTypes (repoRoot filePath : String) (lineNum : Int)
    (h : FileHealth) (testReport : TestCoverageReport) : FileHealth :=
  match testReport.coverageReport with
  | none => h
  | some trep =>
    match resolveRecord trep repoRoot filePath with
    | some d =>
      if lookupHit d.lineHits lineNum > 0 then
        match testReport.testType with
        | .unit => { h with changedLinesCoveredByUnit := h.changedLinesCoveredByUnit + 1 }
        | .api => { h with changedLinesCoveredByAPI := h.changedLinesCoveredByAPI + 1 }
        | .functional =>
          { h with changedLinesCoveredByFunctional := h.changedLinesCoveredByFunctional + 1 }
        | _ => h
      else h
    | none => h

/-- The changed-lines loop body of `analyzeFileHealth`. -/
def fileHealthStep (repoRoot filePath : String) (currentAggregated : Report)
    (haveCoverage : Bool) (testReports : List TestCoverageReport)
    (h : FileHealth) (lineNum : Int) : FileHealth :=
  let isCovered :=
    haveCoverage &&
      (isLineCovered currentAggregated filePath lineNum
        || isLineCovered currentAggregated (NormalizePath repoRoot filePath) lineNum)
  if isCovered then
    let h := { h with changedCoveredLines := h.changedCoveredLines + 1 }
    testReports.foldl (tagTestTypes repoRoot filePath lineNum) h
  else
    { h with changedUncoveredLines := h.changedUncoveredLines + 1 }

/-- The baseline-comparison block of `analyzeFileHealth`. -/
def fileHealthBaseline (repoRoot filePath : String) (changedLines : List Int)
    (baselineReport : Option Report) (threshold : ℚ) (h : FileHealth) : FileHealth :=
  match baselineReport with
  | none => h
  | some b =>
    if h.isNewFile then h
    else
      match resolveRecord b repoRoot filePath with
      | none => h
      | some _ =>
        let baselineCovered : Int :=
          ((changedLines.filter (fun lineNum =>
            isLineCovered b filePath lineNum
              || isLineCovered b (NormalizePath repoRoot filePath) lineNum)).length : Int)
        let h :=
          if changedLines.length > 0 then
            { h with baselineCoveragePercentage :=
                (baselineCovered : ℚ) / ((changedLines.length : Int) : ℚ) * 100 }
          else h
        let h := { h with coverageDelta :=
          h.changedCoveragePercentage - h.baselineCoveragePercentage }
        { h with hasRegression :=
            decide (h.coverageDelta < 0) && decide (h.changedCoveragePercentage < threshold) }

/-- The whole-file (not changed-line) metrics block of
`analyzeFileHealth`. -/
def fileHealthOverall (fileCoverage : Option CoverageData) (h : FileHealth) : FileHealth :=
  match fileCoverage with
  | some fc =>
    let h := { h with
      totalLines := fc.totalLines,
      coveredLines := fc.coveredLines,
      uncoveredLines := fc.totalLines - fc.coveredLines }
    if h.totalLines > 0 then
      { h with coveragePercentage := (h.coveredLines : ℚ) / (h.totalLines : ℚ) * 100 }
    else h
  | none => h

/-- The guarded changed-line percentage of `analyzeFileHealth`. -/
def fileHealthCurPct (h : FileHealth) : FileHealth :=
  if h.changedLines > 0 then
    { h with changedCoveragePercentage :=
        (h.changedCoveredLines : ℚ) / (h.changedLines : ℚ) * 100 }
  else h

/-- The guarded per-test-type percentages of `analyzeFileHealth`. -/
def fileHealthTestPcts (h : FileHealth) : FileHealth :=
  if h.changedLines > 0 then
    { h with
      unitTestCoverage := (h.changedLinesCoveredByUnit : ℚ) / (h.changedLines : ℚ) * 100,
      apiTestCoverage := (h.changedLinesCoveredByAPI : ℚ) / (h.changedLines : ℚ) * 100,
      functionalTestCoverage :=
        (h.changedLinesCoveredByFunctional : ℚ) / (h.changedLines : ℚ) * 100 }
  else h

/-- `analyzeFileHealth`: health analysis for a single file. -/
def analyzeFileHealth (repoRoot filePath : String) (changedLines : List Int)
    (diffResult : ParseResult) (testReports : List TestCoverageReport)
    (baselineReport : Option Report) (threshold : ℚ) : FileHealth :=
  let h : FileHealth := { filePath := filePath, isNewFile := filePath ∈ diffResult.newFiles }
  let currentAggregated := AggregateCoverage testReports
  let fileCoverage := resolveRecord currentAggregated repoRoot filePath
  let h := fileHealthOverall fileCoverage h
  let h := { h with changedLines := (changedLines.length : Int) }
  let h := changedLines.foldl
    (fileHealthStep repoRoot filePath currentAggregated fileCoverage.isSome testReports) h
  let h := fileHealthCurPct h
  let h := fileHealthBaseline repoRoot filePath changedLines baselineReport threshold h
  let h := fileHealthTestPcts h
  { h with needsAttention :=
      decide (h.changedCoveragePercentage < threshold) || h.hasRegression }

/-- `calculateOverallMetrics`: project-wide figures from the merged
current coverage. -/
def calculateOverallMetrics (r : HealthReport) (coverageReport : Report) : HealthReport :=
  let r := coverageReport.fileCoverage.foldl (fun r q =>
    { r with totalFiles := r.totalFiles + 1,
             totalLines := r.totalLines + q.2.totalLines,
             totalCoveredLines := r.totalCoveredLines + q.2.coveredLines,
             totalUncoveredLines := r.totalUncoveredLines + (q.2.totalLines - q.2.coveredLines) }) r
  if r.totalLines > 0 then
    { r with overallCoverage := (r.totalCoveredLines : ℚ) / (r.totalLines : ℚ) * 100 }
  else r

/-- `calculateNewVsModifiedCoverage`. -/
def calculateNewVsModifiedCoverage (r : HealthReport) : HealthReport :=
  let acc := r.fileHealth.foldl (fun (a : Int × Int × Int × Int) q =>
    if q.2.isNewFile then (a.1 + q.2.changedLines, a.2.1 + q.2.changedCoveredLines, a.2.2.1, a.2.2.2)
    else (a.1, a.2.1, a.2.2.1 + q.2.changedLines, a.2.2.2 + q.2.changedCoveredLines))
    (0, 0, 0, 0)
  let r :=
    if acc.1 > 0 then
      { r with newFilesCoverage := (acc.2.1 : ℚ) / (acc.1 : ℚ) * 100 }
    else r
  if acc.2.2.1 > 0 then
    { r with modifiedFilesCoverage := (acc.2.2.2 : ℚ) / (acc.2.2.1 : ℚ) * 100 }
  else r

/-- `calculateTestTypeCoverage`. -/
def calculateTestTypeCoverage (r : HealthReport)
    (testReports : List TestCoverageReport) : HealthReport :=
  let acc := testReports.foldl (fun (a : Int × Int × Int × Int × Int × Int) tr =>
    match tr.coverageReport with
    | none => a
    | some rep => rep.fileCoverage.foldl (fun a q =>
      match tr.testType with
      | .unit => (a.1 + q.2.coveredLines, a.2.1 + q.2.totalLines, a.2.2)
      | .api => (a.1, a.2.1, a.2.2.1 + q.2.coveredLines, a.2.2.2.1 + q.2.totalLines, a.2.2.2.2)
      | .functional => (a.1, a.2.1, a.2.2.1, a.2.2.2.1,
          a.2.2.2.2.1 + q.2.coveredLines, a.2.2.2.2.2 + q.2.totalLines)
      | _ => a) a)
    (0, 0, 0, 0, 0, 0)
  let r := if acc.2.1 > 0 then
      { r with unitTestCoverage := (acc.1 : ℚ) / (acc.2.1 : ℚ) * 100 } else r
  let r := if acc.2.2.2.1 > 0 then
      { r with apiTestCoverage := (acc.2.2.1 : ℚ) / (acc.2.2.2.1 : ℚ) * 100 } else r
  if acc.2.2.2.2.2 > 0 then
    { r with functionalTestCoverage :=
        (acc.2.2.2.2.1 : ℚ) / (acc.2.2.2.2.2 : ℚ) * 100 }
  else r

/-- `generateInsights` (message text reduced to fixed labels). -/
def generateInsights (r : HealthReport) (threshold : ℚ) : HealthReport :=
  let r := r.fileHealth.foldl (fun (r : HealthReport) (q : String × FileHealth) =>
    let r :=
      if q.2.changedCoveragePercentage ≥ threshold then
        { r with healthyFiles := r.healthyFiles + 1 }
      else { r with atRiskFiles := r.atRiskFiles + 1 }
    if q.2.hasRegression then { r with regressingFiles := r.regressingFiles + 1 } else r) r
  let r :=
    if r.changedCoverage ≥ threshold then
      { r with insights := r.insights ++
        [({ type := "success", category := "coverage",
            title := "Coverage threshold met", severity := "low" } : Insight)] }
    else
      { r with insights := r.insights ++
        [({ type := "warning", category := "coverage",
            title := "Coverage below threshold", severity := "high" } : Insight)] }
  let r :=
    if r.regressingFiles > 0 then
      { r with insights := r.insights ++
        [({ type := "error", category := "regression",
            title := "files with coverage regression", severity := "critical" } : Insight)] }
    else r
  r.fileHealth.foldl (fun (r : HealthReport) (q : String × FileHealth) =>
    if q.2.changedUncoveredLines > 0 then
      if q.2.changedLinesCoveredByUnit = 0 ∧ q.2.changedLinesCoveredByAPI = 0 then
        { r with insights := r.insights ++
          [({ type := "warning", category := "test-gap",
              title := "No test coverage for changed lines",
              file := q.2.filePath, severity := "high" } : Insight)] }
      else if q.2.changedLinesCoveredByUnit > 0 ∧ q.2.changedLinesCoveredByAPI = 0
          ∧ q.2.changedLinesCoveredByFunctional = 0 then
        { r with insights := r.insights ++
          [({ type := "info", category := "test-gap",
              title := "Unit tests only, consider integration tests",
              file := q.2.filePath, severity := "medium" } : Insight)] }
      else r
    else r) r

/-- `generateRecommendations`. -/
def generateRecommendations (r : HealthReport) (threshold : ℚ) : HealthReport :=
  let acc := r.fileHealth.foldl (fun (a : List String × List String) q =>
    if q.2.needsAttention then
      if q.2.hasRegression then (a.1, a.2 ++ [q.1])
      else if q.2.changedCoveragePercentage < threshold then (a.1 ++ [q.1], a.2)
      else a
    else a) ([], [])
  let r :=
    if acc.1.length > 0 then
      { r with recommendations := r.recommendations ++
        [({ priority := "high", category := "add-tests",
            title := "Add tests for uncovered changes",
            action := "Add unit tests for uncovered changed lines",
            files := acc.1, testType := .unit } : Recommendation)] }
    else r
  if acc.2.length > 0 then
    { r with recommendations := r.recommendations ++
      [({ priority := "critical", category := "fix-regression",
          title := "Fix coverage regression",
          action := "Restore test coverage to baseline levels",
          files := acc.2, testType := .unit } : Recommendation)] }
  else r

/-- The per-file loop body of `AnalyzeHealth`. -/
def healthLoop (repoRoot : String) (diff : ParseResult)
    (testReports : List TestCoverageReport) (baselineAggregated : Option Report)
    (threshold : ℚ) (rep : HealthReport) (q : String × List Int) : HealthReport :=
  let fileHealth := analyzeFileHealth repoRoot q.1 q.2 diff testReports baselineAggregated threshold
  let rep := { rep with
    fileHealth := updA rep.fileHealth q.1 fileHealth,
    changedFiles := rep.changedFiles + 1,
    changedLines := rep.changedLines + fileHealth.changedLines,
    changedCoveredLines := rep.changedCoveredLines + fileHealth.changedCoveredLines,
    changedUncoveredLines := rep.changedUncoveredLines + fileHealth.changedUncoveredLines }
  if fileHealth.isNewFile then { rep with newFilesCount := rep.newFilesCount + 1 }
  else { rep with modifiedFilesCount := rep.modifiedFilesCount + 1 }

/-- `AnalyzeHealth`. -/
def AnalyzeHealth (repoRoot : String) (diffResult : Option ParseResult)
    (testReports : List TestCoverageReport)
    (baselineReports : List TestCoverageReport) (threshold : ℚ) :
    Except String HealthReport :=
  match diffResult with
  | none => .error "diff result cannot be nil"
  | some diff =>
    if testReports.isEmpty then .error "at least one test coverage report is required"
    else
      let currentAggregated := AggregateCoverage testReports
      let baselineAggregated :=
        if baselineReports.length > 0 then some (AggregateCoverage baselineReports)
        else none
      let rep : HealthReport := {}
      let rep := calculateOverallMetrics rep currentAggregated
      let rep := diff.changedLines.foldl
        (healthLoop repoRoot diff testReports baselineAggregated threshold) rep
      let rep :=
        if rep.changedLines > 0 then
          { rep with changedCoverage :=
              (rep.changedCoveredLines : ℚ) / (rep.changedLines : ℚ) * 100 }
        else rep
      let rep := calculateNewVsModifiedCoverage rep
      let rep := calculateTestTypeCoverage rep testReports
      let rep := generateInsights rep threshold
      let rep := generateRecommendations rep threshold
      .ok rep

/-- `Except.isOk`, spelled locally. -/
def isOkE {α : Type} (e : Except String α) : Bool :=
  match e with
  | .ok _ => true
  | .error _ => false

/-! ### Association-list lemmas -/

theorem findA_nil {κ α : Type} [BEq κ] (k : κ) : findA ([] : List (κ × α)) k = none := rfl

theorem findA_cons {κ α : Type} [BEq κ] [LawfulBEq κ] [DecidableEq κ]
    (p : κ × α) (m : List (κ × α)) (k : κ) :
    findA (p :: m) k = if p.1 = k then some p.2 else findA m k := by
  by_cases h : p.1 = k
  · simp [findA, List.find?, h]
  · have hb : (p.1 == k) = false := beq_eq_false_iff_ne.mpr h
    simp [findA, List.find?, hb, h]

theorem updA_cons_eq {κ α : Type} [BEq κ] [LawfulBEq κ] [DecidableEq κ]
    (p : κ × α) (m : List (κ × α)) (k : κ) (v : α) :
    updA (p :: m) k v = if p.1 = k then (k, v) :: m else p :: updA m k v := by
  by_cases h : p.1 = k <;> simp [updA, h]

theorem findA_updA {κ α : Type} [BEq κ] [LawfulBEq κ] [DecidableEq κ]
    (m : List (κ × α)) (k k' : κ) (v : α) :
    findA (updA m k v) k' = if k' = k then some v else findA m k' := by
  induction m with
  | nil =>
    rw [show updA ([] : List (κ × α)) k v = [(k, v)] from rfl, findA_cons, findA_nil]
    by_cases h : k' = k
    · simp [h]
    · rw [if_neg (fun hh => h hh.symm), if_neg h]
  | cons p rest ih =>
    rw [updA_cons_eq]
    by_cases hpk : p.1 = k
    · rw [if_pos hpk, findA_cons]
      by_cases h : k' = k
      · simp [h]
      · rw [if_neg (fun hh => h hh.symm), if_neg h, findA_cons,
          if_neg (by rw [hpk]; exact fun hh => h hh.symm)]
    · rw [if_neg hpk, findA_cons, findA_cons]
      by_cases h : p.1 = k'
      · have hk : ¬ k' = k := fun he => hpk (h.trans he)
        simp [h, hk]
      · simp [h, ih]

theorem mem_updA {κ α : Type} [BEq κ] (m : List (κ × α)) (k : κ) (v : α) :
    ∀ e ∈ updA m k v, e = (k, v) ∨ e ∈ m := by
  induction m with
  | nil => intro e he; simp [updA] at he; exact Or.inl he
  | cons p rest ih =>
    intro e he
    simp only [updA] at he
    by_cases hpk : (p.1 == k) = true
    · simp only [hpk, if_true, List.mem_cons] at he
      rcases he with he | he
      · exact Or.inl he
      · exact Or.inr (List.mem_cons_of_mem _ he)
    · simp only [hpk, Bool.false_eq_true, if_false, List.mem_cons] at he
      rcases he with he | he
      · exact Or.inr (by simp [he])
      · rcases ih e he with h | h
        · exact Or.inl h
        · exact Or.inr (List.mem_cons_of_mem _ h)

theorem updA_entries_pres {κ α : Type} [BEq κ] (P : κ × α → Prop)
    (m : List (κ × α)) (k : κ) (v : α)
    (hm : ∀ e ∈ m, P e) (hv : P (k, v)) : ∀ e ∈ updA m k v, P e := by
  intro e he
  rcases mem_updA m k v e he with h | h
  · exact h ▸ hv
  · exact hm e h

theorem updA_of_findA_none {κ α : Type} [BEq κ] [LawfulBEq κ] [DecidableEq κ]
    (m : List (κ × α)) (k : κ) (v : α) (h : findA m k = none) :
    updA m k v = m ++ [(k, v)] := by
  induction m with
  | nil => rfl
  | cons p rest ih =>
    rw [findA_cons] at h
    by_cases hpk : p.1 = k
    · simp [hpk] at h
    · rw [updA_cons_eq, if_neg hpk, List.cons_append]
      rw [ih (by simpa [hpk] using h)]

theorem findA_map_fst_none {κ α : Type} [BEq κ] [LawfulBEq κ] [DecidableEq κ]
    (m : List (κ × α)) (k : κ) (h : k ∉ m.map Prod.fst) : findA m k = none := by
  induction m with
  | nil => rfl
  | cons p rest ih =>
    rw [findA_cons]
    simp only [List.map_cons, List.mem_cons] at h
    push_neg at h
    rw [if_neg (fun hh => h.1 hh.symm), ih h.2]

theorem findA_mem {κ α : Type} [BEq κ] [LawfulBEq κ] [DecidableEq κ]
    (m : List (κ × α)) (k : κ) (v : α) (h : findA m k = some v) : (k, v) ∈ m := by
  induction m with
  | nil => simp [findA_nil] at h
  | cons p rest ih =>
    rw [findA_cons] at h
    by_cases hpk : p.1 = k
    · simp only [if_pos hpk, Option.some.injEq] at h
      have : p = (k, v) := by
        cases p with
        | mk a b =>
          simp only at hpk
          simp only at h
          rw [hpk, h]
      exact this ▸ List.mem_cons_self _ _
    · exact List.mem_cons_of_mem _ (ih (by simpa [hpk] using h))

theorem findA_of_nodup_mem {κ α : Type} [BEq κ] [LawfulBEq κ] [DecidableEq κ]
    (m : List (κ × α)) (k : κ) (v : α)
    (hnd : (m.map Prod.fst).Nodup) (h : (k, v) ∈ m) : findA m k = some v := by
  induction m with
  | nil => simp at h
  | cons p rest ih =>
    rw [findA_cons]
    simp only [List.map_cons, List.nodup_cons] at hnd
    rcases List.mem_cons.mp h with he | he
    · simp [← he]
    · have hk : p.1 ≠ k := by
        intro hpk
        exact hnd.1 (hpk ▸ (List.mem_map.mpr ⟨(k, v), he, rfl⟩))
      simp only [if_neg hk]
      exact ih hnd.2 he

/-- Generic fold-stability: a field untouched by the step survives the
fold. -/
theorem foldl_pres {α β γ : Type} (f : α → γ) (step : α → β → α) (l : List β) (a : α)
    (h : ∀ a x, f (step a x) = f a) : f (l.foldl step a) = f a := by
  induction l generalizing a with
  | nil => rfl
  | cons x xs ih => rw [List.foldl_cons, ih, h]

/-! ### Hunk parser: fatal-header characterization (C7) and cursor
behaviour (C1) -/

/-- The exact line shape on which `ParseGitDiff` aborts: an `@@` line
(that is not one of the file markers) with at least three
whitespace-separated fields, whose third field starts with `+` and
whose leading number (the post-image start, up to the first comma)
fails `strconv.Atoi`. -/
def fatalHunkHeader (line : String) : Bool :=
  !startsWithS line "--- a/" && !startsWithS line "+++ b/" && startsWithS line "@@" &&
    (match goFields line with
     | _ :: _ :: newFilePart :: _ =>
       startsWithS newFilePart "+" &&
         (goAtoi ((splitOnS (trimPrefixS newFilePart "+") ",").headD "")).isNone
     | _ => false)

/-- The post-image start number a hunk header line carries, when the
header branch of `ParseGitDiff` can extract one. -/
def hunkHeaderStart (line : String) : Option Int :=
  match goFields line with
  | _ :: _ :: newFilePart :: _ =>
    if !startsWithS newFilePart "+" then none
    else goAtoi ((splitOnS (trimPrefixS newFilePart "+") ",").headD "")
  | _ => none

theorem processLine_isOk (st : PState) (line : String) :
    isOkE (processLine st line) = !fatalHunkHeader line := by
  unfold processLine fatalHunkHeader
  by_cases h1 : startsWithS line "--- a/"
  · simp [h1, isOkE]
  by_cases h2 : startsWithS line "+++ b/"
  · simp only [h1, h2, Bool.false_eq_true, if_false, if_true, Bool.not_true, Bool.false_and,
      Bool.and_false, Bool.not_false]
    split <;> rfl
  by_cases h3 : startsWithS line "@@"
  · simp only [h1, h2, h3, Bool.false_eq_true, if_false, if_true, Bool.not_false, Bool.true_and]
    cases hgf : goFields line with
    | nil => rfl
    | cons a t1 =>
      cases t1 with
      | nil => rfl
      | cons b t2 =>
        cases t2 with
        | nil => rfl
        | cons c rest =>
          by_cases hc : startsWithS c "+"
          · simp only [hc, Bool.not_true, Bool.false_eq_true, if_false, Bool.true_and]
            cases hat : goAtoi ((splitOnS (trimPrefixS c "+") ",").headD "") <;>
              simp [hat, isOkE]
          · simp [hc, isOkE]
  · simp only [h1, h2, h3, Bool.false_eq_true, if_false, Bool.false_and, Bool.and_false,
      Bool.not_false]
    split
    · rfl
    · split
      · rfl
      · split
        · rfl
        · split <;> rfl

theorem foldlM_processLine_isOk (lines : List String) :
    ∀ st, isOkE (lines.foldlM processLine st) = lines.all (fun l => !fatalHunkHeader l) := by
  induction lines with
  | nil => intro st; rfl
  | cons l ls ih =>
    intro st
    rw [List.foldlM_cons, List.all_cons]
    cases hp : processLine st l with
    | error e =>
      have : isOkE (Except.error e : Except String PState) = !fatalHunkHeader l := hp ▸ processLine_isOk st l
      simp only [isOkE] at this
      show isOkE (Except.error e >>= fun s => ls.foldlM processLine s) = _
      rw [show (Except.error e >>= fun s => ls.foldlM processLine s)
            = (Except.error e : Except String PState) from rfl]
      simp [isOkE, ← this]
    | ok st' =>
      have : isOkE (Except.ok st' : Except String PState) = !fatalHunkHeader l := hp ▸ processLine_isOk st l
      simp only [isOkE] at this
      show isOkE (Except.ok st' >>= fun s => ls.foldlM processLine s) = _
      rw [show (Except.ok st' >>= fun s => ls.foldlM processLine s)
            = ls.foldlM processLine st' from rfl]
      rw [ih st', ← this, Bool.true_and]

/-- C7 (corrected): `ParseGitDiff` succeeds exactly when no line of the
diff is an `@@` header whose post-image start field fails numeric
parsing; every other malformed line — including a hunk header whose
pre-image field or post-image count field is non-numeric — is skipped
and parsing continues.  A failed parse returns only the error. -/
theorem parseGitDiff_error_iff :
    (∀ lines : List String,
      isOkE (ParseGitDiff lines) = true ↔ ∀ l ∈ lines, fatalHunkHeader l = false)
    ∧ fatalHunkHeader "@@ -5,3 +x,5 @@" = true
    ∧ fatalHunkHeader "@@ -x,3 +5,5 @@" = false
    ∧ fatalHunkHeader "@@ -5,3 +5,x @@" = false := by
  refine ⟨fun lines => ?_, by decide, by decide, by decide⟩
  have hiso : isOkE (ParseGitDiff lines) = lines.all (fun l => !fatalHunkHeader l) := by
    have hfm := foldlM_processLine_isOk lines ({} : PState)
    unfold ParseGitDiff
    cases hf : lines.foldlM processLine ({} : PState) with
    | error e =>
      rw [hf] at hfm
      simp only [isOkE] at hfm
      show isOkE ((Except.error e : Except String PState) >>= fun s => pure s.result) = _
      exact hfm
    | ok stf =>
      rw [hf] at hfm
      simp only [isOkE] at hfm
      show isOkE ((Except.ok stf : Except String PState) >>= fun s => pure s.result) = _
      exact hfm
  rw [hiso, List.all_eq_true]
  constructor
  · intro h l hl
    have := h l hl
    simpa using this
  · intro h l hl
    simp [h l hl]

/-- C7 witness: the characterization applied at a concrete clean diff. -/
theorem parseGitDiff_error_iff_witness :
    isOkE (ParseGitDiff ["--- a/f", "+++ b/f", "@@ -1,2 +1,2 @@", " ctx", "+new"]) = true :=
  (parseGitDiff_error_iff.1 _).mpr (by decide)

/-- C7 counterexample: a diff containing a hunk header with a
non-numeric numeric field (the pre-image start `-x`) parses
successfully, although the claim says any such header is fatal. -/
theorem parseGitDiff_nonnumeric_old_field_ok :
    isOkE (ParseGitDiff ["--- a/f", "+++ b/f", "@@ -x,3 +5,5 @@", "+a"]) = true
    ∧ isOkE (ParseGitDiff ["--- a/f", "+++ b/f", "@@ -5,3 +5,x @@", "+a"]) = true := by
  constructor <;> decide

/-- C1 (corrected): the cursor/recording behaviour of the scan loop.
A hunk header with post-image start `s` sets the cursor to `s - 1`
(with or without a comma in the range); an added line (`+` but not
`+++`) increments the cursor and records the new number as changed and
added; a removed line (`-` but not `---`) changes nothing; a line that
starts with neither `+` nor `-` increments the cursor without
recording.  Amendment: a non-marker line that starts with `+++` or
`---` also leaves the cursor unchanged and records nothing (it is not
treated as a context line).  The `@@ -5,3 +5,5 @@` example yields
added = changed = {6, 7}. -/
theorem hunk_cursor_spec :
    (∀ (st : PState) (line : String) (s : Int),
      startsWithS line "--- a/" = false → startsWithS line "+++ b/" = false →
      startsWithS line "@@" = true → hunkHeaderStart line = some s →
      processLine st line = .ok { st with currentLine := s - 1 })
    ∧ (∀ (st : PState) (line : String), st.currentFile ≠ "" →
      startsWithS line "--- a/" = false → startsWithS line "+++ b/" = false →
      startsWithS line "@@" = false →
      startsWithS line "+" = true → startsWithS line "+++" = false →
      processLine st line = .ok { st with
        currentLine := st.currentLine + 1,
        result := { st.result with
          changedLines := markLine st.result.changedLines st.currentFile (st.currentLine + 1),
          addedLines := markLine st.result.addedLines st.currentFile (st.currentLine + 1) } })
    ∧ (∀ (st : PState) (line : String), st.currentFile ≠ "" →
      startsWithS line "--- a/" = false → startsWithS line "+++ b/" = false →
      startsWithS line "@@" = false → startsWithS line "+" = false →
      startsWithS line "-" = true → startsWithS line "---" = false →
      processLine st line = .ok st)
    ∧ (∀ (st : PState) (line : String), st.currentFile ≠ "" →
      startsWithS line "--- a/" = false → startsWithS line "+++ b/" = false →
      startsWithS line "@@" = false →
      startsWithS line "+" = false → startsWithS line "-" = false →
      processLine st line = .ok { st with currentLine := st.currentLine + 1 })
    ∧ (∀ (st : PState) (line : String), st.currentFile ≠ "" →
      startsWithS line "--- a/" = false → startsWithS line "+++ b/" = false →
      startsWithS line "@@" = false →
      startsWithS line "+" = true → startsWithS line "+++" = true →
      startsWithS line "-" = false → startsWithS line " " = false →
      processLine st line = .ok st)
    ∧ (∀ (st : PState) (line : String), st.currentFile ≠ "" →
      startsWithS line "--- a/" = false → startsWithS line "+++ b/" = false →
      startsWithS line "@@" = false →
      startsWithS line "-" = true → startsWithS line "---" = true →
      startsWithS line "+" = false → startsWithS line " " = false →
      processLine st line = .ok st)
    ∧ (∀ st : PState, processLine st "@@ -5 +5 @@" = processLine st "@@ -5,3 +5,5 @@")
    ∧ (ParseGitDiff ["--- a/file.go", "+++ b/file.go", "@@ -5,3 +5,5 @@",
          " c", "+a", "+b", " c"]).toOption.map
        (fun r => (getLines r.addedLines "file.go", getLines r.changedLines "file.go"))
        = some ([6, 7], [6, 7]) := by
  refine ⟨?_, ?_, ?_, ?_, ?_, ?_, fun st => rfl, by decide⟩
  · intro st line s h1 h2 h3 hs
    unfold processLine
    rw [h1, h2, h3]
    simp only [Bool.false_eq_true, if_false, if_true]
    unfold hunkHeaderStart at hs
    cases hgf : goFields line with
    | nil => rw [hgf] at hs; exact absurd hs (by simp)
    | cons a t1 =>
      cases t1 with
      | nil => rw [hgf] at hs; exact absurd hs (by simp)
      | cons b t2 =>
        cases t2 with
        | nil => rw [hgf] at hs; exact absurd hs (by simp)
        | cons c rest =>
          rw [hgf] at hs
          simp only at hs
          by_cases hc : startsWithS c "+"
          · simp only [hc, Bool.not_true, Bool.false_eq_true, if_false] at hs
            simp only [hc, Bool.not_true, Bool.false_eq_true, if_false, hs]
          · simp [hc] at hs
  · intro st line hcf h1 h2 h3 hp hppp
    unfold processLine
    rw [h1, h2, h3]
    simp [hcf, hp, hppp]
  · intro st line hcf h1 h2 h3 hp hm hmmm
    unfold processLine
    rw [h1, h2, h3]
    simp [hcf, hp, hm, hmmm]
  · intro st line hcf h1 h2 h3 hp hm
    unfold processLine
    rw [h1, h2, h3]
    simp [hcf, hp, hm]
  · intro st line hcf h1 h2 h3 hp hppp hm hsp
    unfold processLine
    rw [h1, h2, h3]
    simp [hcf, hp, hppp, hm, hsp]
  · intro st line hcf h1 h2 h3 hm hmmm hp hsp
    unfold processLine
    rw [h1, h2, h3]
    simp [hcf, hp, hm, hmmm, hsp]

/-- C1 witness: each universally quantified conjunct applied at a
concrete state and line. -/
theorem hunk_cursor_spec_witness :
    processLine { currentFile := "f" } "@@ -5,3 +7,2 @@"
        = .ok { currentFile := "f", currentLine := 6 }
    ∧ processLine { currentFile := "f", currentLine := 4 } "+x"
        = .ok { currentFile := "f", currentLine := 5,
                result := { changedLines := [("f", [5])], addedLines := [("f", [5])] } }
    ∧ processLine { currentFile := "f", currentLine := 4 } "-x" = .ok { currentFile := "f", currentLine := 4 }
    ∧ processLine { currentFile := "f", currentLine := 4 } " x"
        = .ok { currentFile := "f", currentLine := 5 }
    ∧ processLine { currentFile := "f", currentLine := 4 } "+++ junk"
        = .ok { currentFile := "f", currentLine := 4 }
    ∧ processLine { currentFile := "f", currentLine := 4 } "--- junk"
        = .ok { currentFile := "f", currentLine := 4 } :=
  ⟨hunk_cursor_spec.1 _ "@@ -5,3 +7,2 @@" 7 (by decide) (by decide) (by decide) (by decide),
   by
    have h := hunk_cursor_spec.2.1 { currentFile := "f", currentLine := 4 } "+x"
      (by decide) (by decide) (by decide) (by decide) (by decide) (by decide)
    rw [h]
    exact congrArg Except.ok (by decide),
   hunk_cursor_spec.2.2.1 _ "-x" (by decide) (by decide) (by decide) (by decide) (by decide)
     (by decide) (by decide),
   hunk_cursor_spec.2.2.2.1 _ " x" (by decide) (by decide) (by decide) (by decide) (by decide)
     (by decide),
   hunk_cursor_spec.2.2.2.2.1 _ "+++ junk" (by decide) (by decide) (by decide) (by decide)
     (by decide) (by decide) (by decide) (by decide),
   hunk_cursor_spec.2.2.2.2.2.1 _ "--- junk" (by decide) (by decide) (by decide) (by decide)
     (by decide) (by decide) (by decide) (by decide)⟩

/-- C1 counterexample: after `@@ -5,3 +5,5 @@` (cursor 4), the line
`+++ junk` is neither an added nor a removed line, yet the parser does
NOT advance the cursor for it: the following `+x` is recorded at line
5, where the claim's "every other line increments the cursor" reading
would record it at line 6. -/
theorem hunk_cursor_counterexample :
    (ParseGitDiff ["--- a/f", "+++ b/f", "@@ -5,3 +5,5 @@", "+++ junk", "+x"]).toOption.map
        (fun r => getLines r.addedLines "f") = some [5] := by
  decide

/-! ### Change analyzer lemmas (C4, C9, C10) -/

/-- The counting invariant of the changed-line loop. -/
def FRInv (fr : FileResult) : Prop :=
  fr.coveredLines + fr.uncoveredLines = fr.totalChangedLines ∧
  (fr.coveredLineNumbers.length : Int) = fr.coveredLines ∧
  (fr.uncoveredLineNumbers.length : Int) = fr.uncoveredLines

theorem analyzeFileStep_inv {cov : Report} {fp np : String} {hc : Bool}
    {fr : FileResult} (ln : Int) (h : FRInv fr) :
    FRInv (analyzeFileStep cov fp np hc fr ln) := by
  obtain ⟨h1, h2, h3⟩ := h
  unfold analyzeFileStep FRInv
  dsimp only
  split <;> refine ⟨?_, ?_, ?_⟩ <;> dsimp only <;>
    (try simp only [List.length_append, List.length_singleton]) <;> (try push_cast) <;> omega

theorem analyzeFileStep_total (cov : Report) (fp np : String) (hc : Bool)
    (fr : FileResult) (ln : Int) :
    (analyzeFileStep cov fp np hc fr ln).totalChangedLines = fr.totalChangedLines + 1 := by
  unfold analyzeFileStep
  dsimp only
  split <;> rfl

theorem analyzeFileStep_stable (cov : Report) (fp np : String) (hc : Bool)
    (fr : FileResult) (ln : Int) :
    (analyzeFileStep cov fp np hc fr ln).isNewFile = fr.isNewFile
    ∧ (analyzeFileStep cov fp np hc fr ln).filePath = fr.filePath
    ∧ (analyzeFileStep cov fp np hc fr ln).coveragePercentage = fr.coveragePercentage
    ∧ (analyzeFileStep cov fp np hc fr ln).baselineCoveragePercentage
        = fr.baselineCoveragePercentage := by
  unfold analyzeFileStep
  dsimp only
  split <;> exact ⟨rfl, rfl, rfl, rfl⟩

theorem foldl_step_inv (cov : Report) (fp np : String) (hc : Bool)
    (lines : List Int) (fr : FileResult) (h : FRInv fr) :
    FRInv (lines.foldl (analyzeFileStep cov fp np hc) fr) := by
  induction lines generalizing fr with
  | nil => exact h
  | cons x xs ih => exact ih _ (analyzeFileStep_inv x h)

theorem foldl_step_total (cov : Report) (fp np : String) (hc : Bool)
    (lines : List Int) (fr : FileResult) :
    (lines.foldl (analyzeFileStep cov fp np hc) fr).totalChangedLines
      = fr.totalChangedLines + (lines.length : Int) := by
  induction lines generalizing fr with
  | nil => simp
  | cons x xs ih =>
    rw [List.foldl_cons, ih, analyzeFileStep_total, List.length_cons]
    push_cast
    ring

theorem analyzeFileBaselinePct_fields (root fp : String) (lines : List Int)
    (b : Option Report) (newf : Bool) (fr : FileResult) :
    (analyzeFileBaselinePct root fp lines b newf fr).coveredLines = fr.coveredLines
    ∧ (analyzeFileBaselinePct root fp lines b newf fr).uncoveredLines = fr.uncoveredLines
    ∧ (analyzeFileBaselinePct root fp lines b newf fr).totalChangedLines = fr.totalChangedLines
    ∧ (analyzeFileBaselinePct root fp lines b newf fr).coveredLineNumbers = fr.coveredLineNumbers
    ∧ (analyzeFileBaselinePct root fp lines b newf fr).uncoveredLineNumbers
        = fr.uncoveredLineNumbers
    ∧ (analyzeFileBaselinePct root fp lines b newf fr).coveragePercentage
        = fr.coveragePercentage
    ∧ (analyzeFileBaselinePct root fp lines b newf fr).isNewFile = fr.isNewFile
    ∧ (analyzeFileBaselinePct root fp lines b newf fr).filePath = fr.filePath := by
  unfold analyzeFileBaselinePct
  dsimp only
  repeat' split
  all_goals exact ⟨rfl, rfl, rfl, rfl, rfl, rfl, rfl, rfl⟩

theorem analyzeFile_spec (root fp : String) (lines : List Int) (cov : Report)
    (b : Option Report) (newf : Bool) :
    FRInv (analyzeFile root fp lines cov b newf)
    ∧ (analyzeFile root fp lines cov b newf).totalChangedLines = (lines.length : Int)
    ∧ (analyzeFile root fp lines cov b newf).isNewFile = newf
    ∧ (analyzeFile root fp lines cov b newf).filePath = fp
    ∧ (analyzeFile root fp lines cov b newf).coveragePercentage
        = (if (lines.length : Int) > 0
            then ((analyzeFile root fp lines cov b newf).coveredLines : ℚ)
              / ((lines.length : Int) : ℚ) * 100
            else 0) := by
  unfold analyzeFile
  obtain ⟨hbc, hbu, hbt, hbcl, hbul, hbp, hbn, hbf⟩ :=
    analyzeFileBaselinePct_fields root fp lines b newf { filePath := fp, isNewFile := newf }
  set fr1 := analyzeFileBaselinePct root fp lines b newf { filePath := fp, isNewFile := newf }
    with hfr1
  set np := NormalizePath root fp with hnp
  set hcB := (resolveRecord cov root fp).isSome with hhc
  set fr2 := lines.foldl (analyzeFileStep cov fp np hcB) fr1 with hfr2
  have hinv1 : FRInv fr1 := by
    refine ⟨?_, ?_, ?_⟩ <;> simp [hbc, hbu, hbt, hbcl, hbul]
  have hinv2 : FRInv fr2 := foldl_step_inv cov fp np hcB lines fr1 hinv1
  have htot2 : fr2.totalChangedLines = (lines.length : Int) := by
    rw [hfr2, foldl_step_total, hbt]
    simp
  have hnew2 : fr2.isNewFile = newf := by
    rw [hfr2]
    rw [foldl_pres (fun fr : FileResult => fr.isNewFile) _ lines fr1
      (fun a x => (analyzeFileStep_stable cov fp np hcB a x).1), hbn]
  have hfp2 : fr2.filePath = fp := by
    rw [hfr2]
    rw [foldl_pres (fun fr : FileResult => fr.filePath) _ lines fr1
      (fun a x => (analyzeFileStep_stable cov fp np hcB a x).2.1), hbf]
  have hpct2 : fr2.coveragePercentage = 0 := by
    rw [hfr2]
    rw [foldl_pres (fun fr : FileResult => fr.coveragePercentage) _ lines fr1
      (fun a x => (analyzeFileStep_stable cov fp np hcB a x).2.2.1), hbp]
  by_cases htp : fr2.totalChangedLines > 0
  · rw [if_pos htp]
    refine ⟨?_, ?_, ?_, ?_, ?_⟩ <;> dsimp only
    · exact ⟨hinv2.1, hinv2.2.1, hinv2.2.2⟩
    · exact htot2
    · exact hnew2
    · exact hfp2
    · rw [if_pos (htot2 ▸ htp), htot2]
  · rw [if_neg htp]
    refine ⟨hinv2, htot2, hnew2, hfp2, ?_⟩
    rw [if_neg (htot2 ▸ htp), hpct2]

/-- The global accounting invariant of `AnalyzeWithBaseline`'s loop. -/
def ARInv (R : AnalysisResult) : Prop :=
  R.coveredLines + R.uncoveredLines = R.totalChangedLines ∧
  0 ≤ R.coveredLines ∧ 0 ≤ R.uncoveredLines ∧
  R.newFileMetrics.totalChangedLines + R.modifiedFileMetrics.totalChangedLines
    = R.totalChangedLines ∧
  R.newFileMetrics.coveredLines + R.modifiedFileMetrics.coveredLines = R.coveredLines ∧
  R.newFileMetrics.uncoveredLines + R.modifiedFileMetrics.uncoveredLines = R.uncoveredLines

theorem FRInv_nonneg {fr : FileResult} (h : FRInv fr) :
    0 ≤ fr.coveredLines ∧ 0 ≤ fr.uncoveredLines ∧ 0 ≤ fr.totalChangedLines := by
  obtain ⟨h1, h2, h3⟩ := h
  omega

theorem analyzeLoop_inv (root : String) (diff : ParseResult) (cov : Report)
    (b : Option Report) (R : AnalysisResult) (e : String × List Int) (h : ARInv R) :
    ARInv (analyzeLoop root diff cov b R e) := by
  obtain ⟨hfi, _, _, _, _⟩ := analyzeFile_spec root e.1 e.2 cov b (e.1 ∈ diff.newFiles)
  obtain ⟨hn1, hn2, hn3⟩ := FRInv_nonneg hfi
  obtain ⟨g1, g2, g3, g4, g5, g6⟩ := h
  have hfe := hfi.1
  unfold analyzeLoop ARInv
  dsimp only
  split <;> refine ⟨?_, ?_, ?_, ?_, ?_, ?_⟩ <;> simp only [bumpMetrics] <;> omega

theorem foldl_loop_inv (root : String) (diff : ParseResult) (cov : Report)
    (b : Option Report) (entries : List (String × List Int)) (R : AnalysisResult)
    (h : ARInv R) :
    ARInv (entries.foldl (analyzeLoop root diff cov b) R) := by
  induction entries generalizing R with
  | nil => exact h
  | cons e es ih => exact ih _ (analyzeLoop_inv root diff cov b R e h)

theorem analyzeLoop_globals (root : String) (diff : ParseResult) (cov : Report)
    (b : Option Report) (R : AnalysisResult) (e : String × List Int) :
    (analyzeLoop root diff cov b R e).totalChangedLines
        = R.totalChangedLines
          + (analyzeFile root e.1 e.2 cov b (e.1 ∈ diff.newFiles)).totalChangedLines
    ∧ (analyzeLoop root diff cov b R e).coveredLines
        = R.coveredLines + (analyzeFile root e.1 e.2 cov b (e.1 ∈ diff.newFiles)).coveredLines
    ∧ (analyzeLoop root diff cov b R e).uncoveredLines
        = R.uncoveredLines + (analyzeFile root e.1 e.2 cov b (e.1 ∈ diff.newFiles)).uncoveredLines
    ∧ (analyzeLoop root diff cov b R e).fileResults
        = updA R.fileResults e.1 (analyzeFile root e.1 e.2 cov b (e.1 ∈ diff.newFiles))
    ∧ (analyzeLoop root diff cov b R e).coveragePercentage = R.coveragePercentage
    ∧ (analyzeLoop root diff cov b R e).newFileMetrics.fileCount
          + (analyzeLoop root diff cov b R e).modifiedFileMetrics.fileCount
        = R.newFileMetrics.fileCount + R.modifiedFileMetrics.fileCount + 1 := by
  unfold analyzeLoop
  dsimp only
  split <;> refine ⟨?_, ?_, ?_, ?_, ?_, ?_⟩ <;> simp only [bumpMetrics] <;>
    first
    | rfl
    | omega

theorem findA_append {κ α : Type} [BEq κ] [LawfulBEq κ] [DecidableEq κ]
    (m₁ m₂ : List (κ × α)) (k : κ) :
    findA (m₁ ++ m₂) k
      = match findA m₁ k with
        | some v => some v
        | none => findA m₂ k := by
  induction m₁ with
  | nil => simp [findA_nil]
  | cons p rest ih =>
    rw [List.cons_append, findA_cons, findA_cons]
    by_cases h : p.1 = k
    · simp [h]
    · simp [h, ih]

theorem findA_append_none {κ α : Type} [BEq κ] [LawfulBEq κ] [DecidableEq κ]
    (m₁ m₂ : List (κ × α)) (k : κ) (h1 : findA m₁ k = none) (h2 : findA m₂ k = none) :
    findA (m₁ ++ m₂) k = none := by
  rw [findA_append, h1]
  exact h2

theorem foldl_loop_entries (root : String) (diff : ParseResult) (cov : Report)
    (b : Option Report) :
    ∀ (entries : List (String × List Int)) (R : AnalysisResult),
      (entries.map Prod.fst).Nodup →
      (∀ e ∈ entries, findA R.fileResults e.1 = none) →
      (entries.foldl (analyzeLoop root diff cov b) R).fileResults
        = R.fileResults ++ entries.map (fun e =>
            (e.1, analyzeFile root e.1 e.2 cov b (e.1 ∈ diff.newFiles))) := by
  intro entries
  induction entries with
  | nil => intro R _ _; simp
  | cons e es ih =>
    intro R hnd habs
    rw [List.foldl_cons]
    have hstep := (analyzeLoop_globals root diff cov b R e).2.2.2.1
    have habs0 : findA R.fileResults e.1 = none := habs e (List.mem_cons_self _ _)
    simp only [List.map_cons, List.nodup_cons] at hnd
    have hres : (analyzeLoop root diff cov b R e).fileResults
        = R.fileResults ++ [(e.1, analyzeFile root e.1 e.2 cov b (e.1 ∈ diff.newFiles))] := by
      rw [hstep, updA_of_findA_none _ _ _ habs0]
    rw [ih (analyzeLoop root diff cov b R e) hnd.2 ?_, hres, List.map_cons,
      List.append_assoc, List.singleton_append]
    intro x hx
    have hx1 : x.1 ≠ e.1 := by
      intro hxe
      exact hnd.1 (hxe ▸ List.mem_map.mpr ⟨x, hx, rfl⟩)
    rw [hres]
    refine findA_append_none _ _ _ (habs x (List.mem_cons_of_mem _ hx)) ?_
    rw [findA_cons, if_neg (fun h => hx1 h.symm), findA_nil]

theorem foldl_loop_sums (root : String) (diff : ParseResult) (cov : Report)
    (b : Option Report) (entries : List (String × List Int)) (R : AnalysisResult) :
    (entries.foldl (analyzeLoop root diff cov b) R).totalChangedLines
        = R.totalChangedLines + ((entries.map (fun e =>
            (analyzeFile root e.1 e.2 cov b (e.1 ∈ diff.newFiles)).totalChangedLines)).sum)
    ∧ (entries.foldl (analyzeLoop root diff cov b) R).coveredLines
        = R.coveredLines + ((entries.map (fun e =>
            (analyzeFile root e.1 e.2 cov b (e.1 ∈ diff.newFiles)).coveredLines)).sum)
    ∧ (entries.foldl (analyzeLoop root diff cov b) R).uncoveredLines
        = R.uncoveredLines + ((entries.map (fun e =>
            (analyzeFile root e.1 e.2 cov b (e.1 ∈ diff.newFiles)).uncoveredLines)).sum)
    ∧ (entries.foldl (analyzeLoop root diff cov b) R).coveragePercentage
        = R.coveragePercentage
    ∧ (entries.foldl (analyzeLoop root diff cov b) R).newFileMetrics.fileCount
          + (entries.foldl (analyzeLoop root diff cov b) R).modifiedFileMetrics.fileCount
        = R.newFileMetrics.fileCount + R.modifiedFileMetrics.fileCount
          + (entries.length : Int) := by
  induction entries generalizing R with
  | nil => simp
  | cons e es ih =>
    rw [List.foldl_cons]
    obtain ⟨s1, s2, s3, s4, s5, s6⟩ := analyzeLoop_globals root diff cov b R e
    obtain ⟨i1, i2, i3, i4, i5⟩ := ih (analyzeLoop root diff cov b R e)
    refine ⟨?_, ?_, ?_, ?_, ?_⟩
    · rw [i1, s1, List.map_cons, List.sum_cons]; ring
    · rw [i2, s2, List.map_cons, List.sum_cons]; ring
    · rw [i3, s3, List.map_cons, List.sum_cons]; ring
    · rw [i4, s5]
    · rw [i5, s6, List.length_cons]; push_cast; ring

theorem finalizePercentages_fields (R : AnalysisResult) :
    (finalizePercentages R).totalChangedLines = R.totalChangedLines
    ∧ (finalizePercentages R).coveredLines = R.coveredLines
    ∧ (finalizePercentages R).uncoveredLines = R.uncoveredLines
    ∧ (finalizePercentages R).fileResults = R.fileResults
    ∧ (finalizePercentages R).newFileMetrics.totalChangedLines
        = R.newFileMetrics.totalChangedLines
    ∧ (finalizePercentages R).newFileMetrics.coveredLines = R.newFileMetrics.coveredLines
    ∧ (finalizePercentages R).newFileMetrics.uncoveredLines = R.newFileMetrics.uncoveredLines
    ∧ (finalizePercentages R).newFileMetrics.fileCount = R.newFileMetrics.fileCount
    ∧ (finalizePercentages R).modifiedFileMetrics.totalChangedLines
        = R.modifiedFileMetrics.totalChangedLines
    ∧ (finalizePercentages R).modifiedFileMetrics.coveredLines
        = R.modifiedFileMetrics.coveredLines
    ∧ (finalizePercentages R).modifiedFileMetrics.uncoveredLines
        = R.modifiedFileMetrics.uncoveredLines
    ∧ (finalizePercentages R).modifiedFileMetrics.fileCount = R.modifiedFileMetrics.fileCount
    ∧ (finalizePercentages R).coveragePercentage
        = (if R.totalChangedLines > 0
            then (R.coveredLines : ℚ) / (R.totalChangedLines : ℚ) * 100
            else R.coveragePercentage) := by
  unfold finalizePercentages
  dsimp only
  by_cases h1 : R.totalChangedLines > 0 <;>
    by_cases h2 : R.newFileMetrics.totalChangedLines > 0 <;>
      by_cases h3 : R.modifiedFileMetrics.totalChangedLines > 0 <;>
        simp [h1, h2, h3]

/-- The decomposition of a successful `AnalyzeWithBaseline` run: the
result is the fold of `analyzeLoop`, finalized. -/
theorem AWB_eq_ok (root : String) (d : ParseResult) (cov : Report) (b : Option Report) :
    AnalyzeWithBaseline root (some d) (some cov) b
      = .ok (finalizePercentages
          (d.changedLines.foldl (analyzeLoop root d cov b) {})) := rfl

theorem ARInv_empty : ARInv {} := ⟨rfl, le_refl 0, le_refl 0, rfl, rfl, rfl⟩

/-- C4 (corrected): the coverage percentage of every analysis result
lies in [0, 100], and it is 0 exactly when no changed line is covered —
in particular when TotalChangedLines = 0, but also when changed lines
exist and none of them is covered. -/
theorem coverage_percentage_bounds (root : String) (d : ParseResult) (cov : Report)
    (b : Option Report) (res : AnalysisResult)
    (h : AnalyzeWithBaseline root (some d) (some cov) b = .ok res) :
    0 ≤ res.coveragePercentage ∧ res.coveragePercentage ≤ 100
    ∧ (res.coveragePercentage = 0 ↔ res.coveredLines = 0)
    ∧ (res.totalChangedLines = 0 → res.coveragePercentage = 0) := by
  rw [AWB_eq_ok] at h
  injection h with h
  subst h
  set R0 := d.changedLines.foldl (analyzeLoop root d cov b) ({} : AnalysisResult) with hR0
  obtain ⟨a1, a2, a3, _, _, _⟩ := foldl_loop_inv root d cov b d.changedLines {} ARInv_empty
  have hpct0 := (foldl_loop_sums root d cov b d.changedLines {}).2.2.2.1
  rw [← hR0] at a1 a2 a3 hpct0
  have hfin := finalizePercentages_fields R0
  have hp := hfin.2.2.2.2.2.2.2.2.2.2.2.2
  have hc := hfin.2.1
  have ht := hfin.1
  have hct : R0.coveredLines ≤ R0.totalChangedLines := by omega
  rw [hp, hc, ht]
  by_cases htp : R0.totalChangedLines > 0
  · rw [if_pos htp]
    have h0 : (0 : ℚ) < (R0.totalChangedLines : ℚ) := by exact_mod_cast htp
    have hca : (0 : ℚ) ≤ (R0.coveredLines : ℚ) := by exact_mod_cast a2
    have hcb : (R0.coveredLines : ℚ) ≤ (R0.totalChangedLines : ℚ) := by exact_mod_cast hct
    refine ⟨mul_nonneg (div_nonneg hca h0.le) (by norm_num), ?_, ?_, ?_⟩
    · have hd1 : (R0.coveredLines : ℚ) / (R0.totalChangedLines : ℚ) ≤ 1 :=
        (div_le_one h0).mpr hcb
      calc (R0.coveredLines : ℚ) / (R0.totalChangedLines : ℚ) * 100
          ≤ 1 * 100 := mul_le_mul_of_nonneg_right hd1 (by norm_num)
        _ = 100 := one_mul 100
    · constructor
      · intro hz
        rcases mul_eq_zero.mp hz with hz | hz
        · rcases div_eq_zero_iff.mp hz with hz | hz
          · exact_mod_cast hz
          · exact absurd hz h0.ne'
        · norm_num at hz
      · intro hz
        rw [hz]
        norm_num
    · intro hz
      omega
  · rw [if_neg htp, hpct0]
    have hcz : R0.coveredLines = 0 := by omega
    exact ⟨le_refl 0, by norm_num, by simp [hcz], fun _ => rfl⟩

/-- Concrete diff used in the analyzer witnesses: one modified file with
a single changed line 5. -/
def dEx : ParseResult :=
  { changedLines := [("f", [5])], addedLines := [("f", [5])], modifiedFiles := ["f"] }

/-- The analysis of `dEx` against an empty coverage report. -/
def resEx : AnalysisResult :=
  match AnalyzeWithBaseline "" (some dEx) (some {}) none with
  | .ok r => r
  | .error _ => {}

/-- C4 witness: the bounds theorem applied at a concrete run. -/
theorem coverage_percentage_bounds_witness :
    AnalyzeWithBaseline "" (some dEx) (some {}) none = .ok resEx
    ∧ (0 ≤ resEx.coveragePercentage ∧ resEx.coveragePercentage ≤ 100
       ∧ (resEx.coveragePercentage = 0 ↔ resEx.coveredLines = 0)
       ∧ (resEx.totalChangedLines = 0 → resEx.coveragePercentage = 0)) :=
  ⟨rfl, coverage_percentage_bounds "" dEx {} none resEx rfl⟩

/-- C4 counterexample: one changed line, uncovered — the coverage
percentage is 0 while TotalChangedLines is 1, refuting
"CoveragePercentage = 0 iff TotalChangedLines = 0". -/
theorem coverage_percentage_zero_with_changes :
    AnalyzeWithBaseline "" (some dEx) (some {}) none = .ok resEx
    ∧ resEx.totalChangedLines = 1
    ∧ resEx.coveredLines = 0
    ∧ resEx.coveragePercentage = 0 := by
  refine ⟨rfl, by decide, by decide, ?_⟩
  have hres : resEx
      = finalizePercentages (dEx.changedLines.foldl (analyzeLoop "" dEx {} none) {}) := rfl
  set R0 := dEx.changedLines.foldl (analyzeLoop "" dEx {} none) ({} : AnalysisResult) with hR0
  have hp := (finalizePercentages_fields R0).2.2.2.2.2.2.2.2.2.2.2.2
  rw [hres, hp]
  have h1 : R0.totalChangedLines = 1 := by decide
  have h2 : R0.coveredLines = 0 := by decide
  rw [if_pos (by rw [h1]; norm_num), h2, h1]
  norm_num

/-! ### Claim C9: error conditions and graceful degradation -/

theorem analyzeFileStep_false_fields (cov : Report) (fp np : String)
    (fr : FileResult) (ln : Int) :
    (analyzeFileStep cov fp np false fr ln).coveredLines = fr.coveredLines
    ∧ (analyzeFileStep cov fp np false fr ln).coveredLineNumbers = fr.coveredLineNumbers := by
  unfold analyzeFileStep
  dsimp only
  rw [Bool.false_and]
  exact ⟨rfl, rfl⟩

theorem analyzeFileStep_unc_mono (cov : Report) (fp np : String) (hc : Bool)
    (fr : FileResult) (x ln : Int) (h : ln ∈ fr.uncoveredLineNumbers) :
    ln ∈ (analyzeFileStep cov fp np hc fr x).uncoveredLineNumbers := by
  unfold analyzeFileStep
  dsimp only
  split
  · exact h
  · exact List.mem_append_left _ h

theorem foldl_step_unc_mono (cov : Report) (fp np : String) (hc : Bool)
    (ls : List Int) (fr : FileResult) (ln : Int) (h : ln ∈ fr.uncoveredLineNumbers) :
    ln ∈ (ls.foldl (analyzeFileStep cov fp np hc) fr).uncoveredLineNumbers := by
  induction ls generalizing fr with
  | nil => exact h
  | cons x xs ih => exact ih _ (analyzeFileStep_unc_mono cov fp np hc fr x ln h)

theorem analyzeFileStep_records_uncovered (cov : Report) (fp np : String) (hc : Bool)
    (fr : FileResult) (ln : Int)
    (h1 : isLineCovered cov fp ln = false) (h2 : isLineCovered cov np ln = false) :
    ln ∈ (analyzeFileStep cov fp np hc fr ln).uncoveredLineNumbers := by
  unfold analyzeFileStep
  dsimp only
  rw [h1, h2]
  simp

/-- C9 (confirmed): Analyze/AnalyzeWithBaseline fail exactly on a nil
diff result or nil coverage report, AnalyzeHealth exactly on a nil
diff result or an empty suite list; a file whose record resolves
nowhere yields 0 covered lines (0%), all its changed lines uncovered,
and a changed line uncovered under both path spellings is recorded as
uncovered — never an error. -/
theorem analysis_error_conditions :
    (∀ (root : String) (d : Option ParseResult) (cov b : Option Report),
      isOkE (AnalyzeWithBaseline root d cov b) = (d.isSome && cov.isSome))
    ∧ (∀ (root : String) (d : Option ParseResult) (trs brs : List TestCoverageReport) (t : ℚ),
      isOkE (AnalyzeHealth root d trs brs t) = (d.isSome && !trs.isEmpty))
    ∧ (∀ (root : String) (d : Option ParseResult) (cov : Option Report),
      Analyze root d cov = AnalyzeWithBaseline root d cov none)
    ∧ (∀ (root fp : String) (lines : List Int) (cov : Report) (b : Option Report) (newf : Bool),
      resolveRecord cov root fp = none →
      (analyzeFile root fp lines cov b newf).coveredLines = 0
      ∧ (analyzeFile root fp lines cov b newf).uncoveredLines
          = (analyzeFile root fp lines cov b newf).totalChangedLines
      ∧ (analyzeFile root fp lines cov b newf).coveragePercentage = 0)
    ∧ (∀ (root fp : String) (lines : List Int) (cov : Report) (b : Option Report)
        (newf : Bool) (ln : Int), ln ∈ lines →
      isLineCovered cov fp ln = false →
      isLineCovered cov (NormalizePath root fp) ln = false →
      ln ∈ (analyzeFile root fp lines cov b newf).uncoveredLineNumbers) := by
  refine ⟨?_, ?_, fun _ _ _ => rfl, ?_, ?_⟩
  · intro root d cov b
    cases d <;> cases cov <;> rfl
  · intro root d trs brs t
    cases d with
    | none => rfl
    | some d' =>
      unfold AnalyzeHealth
      dsimp only
      cases htre : trs.isEmpty <;> simp [htre, isOkE]
  · intro root fp lines cov b newf hres
    obtain ⟨hbc, hbu, hbt, hbcl, hbul, hbp, _, _⟩ :=
      analyzeFileBaselinePct_fields root fp lines b newf { filePath := fp, isNewFile := newf }
    set fr1 := analyzeFileBaselinePct root fp lines b newf { filePath := fp, isNewFile := newf }
      with hfr1
    have hfile : analyzeFile root fp lines cov b newf
        = (let fr2 := lines.foldl
            (analyzeFileStep cov fp (NormalizePath root fp) (resolveRecord cov root fp).isSome) fr1
          if fr2.totalChangedLines > 0 then
            { fr2 with coveragePercentage :=
                (fr2.coveredLines : ℚ) / (fr2.totalChangedLines : ℚ) * 100 }
          else fr2) := rfl
    rw [hfile, hres]
    dsimp only [Option.isSome]
    set fr2 := lines.foldl (analyzeFileStep cov fp (NormalizePath root fp) false) fr1 with hfr2
    have hcov2 : fr2.coveredLines = 0 := by
      rw [hfr2, foldl_pres (fun fr : FileResult => fr.coveredLines) _ lines fr1
        (fun a x => (analyzeFileStep_false_fields cov fp (NormalizePath root fp) a x).1), hbc]
    have hinv2 : FRInv fr2 := by
      refine foldl_step_inv _ _ _ _ _ _ ⟨?_, ?_, ?_⟩ <;> simp [hbc, hbu, hbt, hbcl, hbul]
    obtain ⟨i1, i2, i3⟩ := hinv2
    have hpct2 : fr2.coveragePercentage = 0 := by
      rw [hfr2, foldl_pres (fun fr : FileResult => fr.coveragePercentage) _ lines fr1
        (fun a x => (analyzeFileStep_stable cov fp (NormalizePath root fp) false a x).2.2.1), hbp]
    by_cases htp : fr2.totalChangedLines > 0
    · rw [if_pos htp]
      refine ⟨hcov2, by dsimp only; omega, ?_⟩
      dsimp only
      rw [hcov2]
      norm_num
    · rw [if_neg htp]
      exact ⟨hcov2, by omega, hpct2⟩
  · intro root fp lines cov b newf ln hmem h1 h2
    have hfile : analyzeFile root fp lines cov b newf
        = (let fr2 := lines.foldl
            (analyzeFileStep cov fp (NormalizePath root fp) (resolveRecord cov root fp).isSome)
            (analyzeFileBaselinePct root fp lines b newf { filePath := fp, isNewFile := newf })
          if fr2.totalChangedLines > 0 then
            { fr2 with coveragePercentage :=
                (fr2.coveredLines : ℚ) / (fr2.totalChangedLines : ℚ) * 100 }
          else fr2) := rfl
    rw [hfile]
    dsimp only
    have hmain : ∀ (ls : List Int) (fr : FileResult), ln ∈ ls →
        ln ∈ (ls.foldl (analyzeFileStep cov fp (NormalizePath root fp)
            (resolveRecord cov root fp).isSome) fr).uncoveredLineNumbers := by
      intro ls
      induction ls with
      | nil => intro fr hf; simp at hf
      | cons x xs ih =>
        intro fr hf
        rcases List.mem_cons.mp hf with he | he
        · subst he
          exact foldl_step_unc_mono _ _ _ _ xs _ ln
            (analyzeFileStep_records_uncovered cov fp (NormalizePath root fp) _ fr ln h1 h2)
        · exact ih _ he
    have hm := hmain lines
      (analyzeFileBaselinePct root fp lines b newf { filePath := fp, isNewFile := newf }) hmem
    split
    · exact hm
    · exact hm

/-- C10 (confirmed): per-file accounting (covered + uncovered = total =
size of the changed-line set, list lengths match the counters), global
counters are the sums of the per-file ones, and the new-file/
modified-file metrics partition the global figures with file counts
summing to the number of per-file results. -/
theorem analysis_accounting (root : String) (d : ParseResult) (cov : Report)
    (b : Option Report) (res : AnalysisResult)
    (hnd : (d.changedLines.map Prod.fst).Nodup)
    (hld : ∀ e ∈ d.changedLines, e.2.Nodup)
    (h : AnalyzeWithBaseline root (some d) (some cov) b = .ok res) :
    (∀ e ∈ res.fileResults,
      e.2.coveredLines + e.2.uncoveredLines = e.2.totalChangedLines
      ∧ (e.2.coveredLineNumbers.length : Int) = e.2.coveredLines
      ∧ (e.2.uncoveredLineNumbers.length : Int) = e.2.uncoveredLines
      ∧ ∃ ls, findA d.changedLines e.1 = some ls
          ∧ e.2.totalChangedLines = (ls.length : Int)
          ∧ e.2.totalChangedLines = (ls.toFinset.card : Int))
    ∧ res.totalChangedLines = ((res.fileResults.map (fun e => e.2.totalChangedLines)).sum)
    ∧ res.coveredLines = ((res.fileResults.map (fun e => e.2.coveredLines)).sum)
    ∧ res.uncoveredLines = ((res.fileResults.map (fun e => e.2.uncoveredLines)).sum)
    ∧ res.newFileMetrics.totalChangedLines + res.modifiedFileMetrics.totalChangedLines
        = res.totalChangedLines
    ∧ res.newFileMetrics.coveredLines + res.modifiedFileMetrics.coveredLines = res.coveredLines
    ∧ res.newFileMetrics.uncoveredLines + res.modifiedFileMetrics.uncoveredLines
        = res.uncoveredLines
    ∧ res.newFileMetrics.fileCount + res.modifiedFileMetrics.fileCount
        = (res.fileResults.length : Int) := by
  rw [AWB_eq_ok] at h
  injection h with h
  subst h
  set R0 := d.changedLines.foldl (analyzeLoop root d cov b) ({} : AnalysisResult) with hR0
  obtain ⟨s1, s2, s3, _, s5⟩ := foldl_loop_sums root d cov b d.changedLines {}
  obtain ⟨_, _, _, i4, i5, i6⟩ := foldl_loop_inv root d cov b d.changedLines {} ARInv_empty
  have hent := foldl_loop_entries root d cov b d.changedLines {} hnd
    (fun e _ => findA_nil e.1)
  rw [← hR0] at s1 s2 s3 s5 i4 i5 i6 hent
  simp only [show (({} : AnalysisResult)).fileResults = [] from rfl, List.nil_append] at hent
  have hfin := finalizePercentages_fields R0
  obtain ⟨f1, f2, f3, f4, f5, f6, f7, f8, f9, f10, f11, f12, _⟩ := hfin
  refine ⟨?_, ?_, ?_, ?_, ?_, ?_, ?_, ?_⟩
  · intro e he
    rw [f4, hent] at he
    obtain ⟨q, hq, hqe⟩ := List.mem_map.mp he
    obtain ⟨⟨p1, p2, p3⟩, pt, _, _, _⟩ :=
      analyzeFile_spec root q.1 q.2 cov b (q.1 ∈ d.newFiles)
    subst hqe
    refine ⟨p1, p2, p3, q.2, ?_, pt, ?_⟩
    · exact findA_of_nodup_mem d.changedLines q.1 q.2 hnd (by simpa using hq)
    · rw [pt, List.toFinset_card_of_nodup (hld q hq)]
  · rw [f1, f4, hent, s1, List.map_map]
    simp [Function.comp_def]
  · rw [f2, f4, hent, s2, List.map_map]
    simp [Function.comp_def]
  · rw [f3, f4, hent, s3, List.map_map]
    simp [Function.comp_def]
  · rw [f5, f9, f1]; exact i4
  · rw [f6, f10, f2]; exact i5
  · rw [f7, f11, f3]; exact i6
  · rw [f8, f12, f4, hent, s5, List.length_map]
    simp

/-- C10 witness: the accounting theorem applied at a concrete run. -/
theorem analysis_accounting_witness :
    ((dEx.changedLines.map Prod.fst).Nodup ∧ ∀ e ∈ dEx.changedLines, e.2.Nodup)
    ∧ AnalyzeWithBaseline "" (some dEx) (some {}) none = .ok resEx
    ∧ resEx.newFileMetrics.fileCount + resEx.modifiedFileMetrics.fileCount
        = (resEx.fileResults.length : Int) :=
  ⟨⟨by decide, by decide⟩, rfl,
   (analysis_accounting "" dEx {} none resEx (by decide) (by decide) rfl).2.2.2.2.2.2.2⟩

/-! ### Claim C3: regression flag semantics -/

theorem tagTestTypes_stable (root fp : String) (ln : Int) (h : FileHealth)
    (tr : TestCoverageReport) :
    (tagTestTypes root fp ln h tr).hasRegression = h.hasRegression
    ∧ (tagTestTypes root fp ln h tr).coverageDelta = h.coverageDelta
    ∧ (tagTestTypes root fp ln h tr).changedCoveragePercentage = h.changedCoveragePercentage
    ∧ (tagTestTypes root fp ln h tr).baselineCoveragePercentage = h.baselineCoveragePercentage
    ∧ (tagTestTypes root fp ln h tr).isNewFile = h.isNewFile
    ∧ (tagTestTypes root fp ln h tr).changedLines = h.changedLines := by
  unfold tagTestTypes
  try dsimp only
  repeat' split
  all_goals exact ⟨rfl, rfl, rfl, rfl, rfl, rfl⟩

theorem fileHealthStep_stable (root fp : String) (agg : Report) (hc : Bool)
    (trs : List TestCoverageReport) (h : FileHealth) (ln : Int) :
    (fileHealthStep root fp agg hc trs h ln).hasRegression = h.hasRegression
    ∧ (fileHealthStep root fp agg hc trs h ln).coverageDelta = h.coverageDelta
    ∧ (fileHealthStep root fp agg hc trs h ln).changedCoveragePercentage
        = h.changedCoveragePercentage
    ∧ (fileHealthStep root fp agg hc trs h ln).baselineCoveragePercentage
        = h.baselineCoveragePercentage
    ∧ (fileHealthStep root fp agg hc trs h ln).isNewFile = h.isNewFile
    ∧ (fileHealthStep root fp agg hc trs h ln).changedLines = h.changedLines := by
  unfold fileHealthStep
  dsimp only
  split
  · refine ⟨?_, ?_, ?_, ?_, ?_, ?_⟩
    · exact foldl_pres (fun x : FileHealth => x.hasRegression) _ trs _
        (fun a x => (tagTestTypes_stable root fp ln a x).1)
    · exact foldl_pres (fun x : FileHealth => x.coverageDelta) _ trs _
        (fun a x => (tagTestTypes_stable root fp ln a x).2.1)
    · exact foldl_pres (fun x : FileHealth => x.changedCoveragePercentage) _ trs _
        (fun a x => (tagTestTypes_stable root fp ln a x).2.2.1)
    · exact foldl_pres (fun x : FileHealth => x.baselineCoveragePercentage) _ trs _
        (fun a x => (tagTestTypes_stable root fp ln a x).2.2.2.1)
    · exact foldl_pres (fun x : FileHealth => x.isNewFile) _ trs _
        (fun a x => (tagTestTypes_stable root fp ln a x).2.2.2.2.1)
    · exact foldl_pres (fun x : FileHealth => x.changedLines) _ trs _
        (fun a x => (tagTestTypes_stable root fp ln a x).2.2.2.2.2)
  · exact ⟨rfl, rfl, rfl, rfl, rfl, rfl⟩

theorem fileHealthOverall_stable (fc : Option CoverageData) (h : FileHealth) :
    (fileHealthOverall fc h).hasRegression = h.hasRegression
    ∧ (fileHealthOverall fc h).coverageDelta = h.coverageDelta
    ∧ (fileHealthOverall fc h).changedCoveragePercentage = h.changedCoveragePercentage
    ∧ (fileHealthOverall fc h).baselineCoveragePercentage = h.baselineCoveragePercentage
    ∧ (fileHealthOverall fc h).isNewFile = h.isNewFile := by
  unfold fileHealthOverall
  dsimp only
  repeat' split
  all_goals exact ⟨rfl, rfl, rfl, rfl, rfl⟩

theorem fileHealthCurPct_stable (h : FileHealth) :
    (fileHealthCurPct h).hasRegression = h.hasRegression
    ∧ (fileHealthCurPct h).coverageDelta = h.coverageDelta
    ∧ (fileHealthCurPct h).baselineCoveragePercentage = h.baselineCoveragePercentage
    ∧ (fileHealthCurPct h).isNewFile = h.isNewFile := by
  unfold fileHealthCurPct
  try dsimp only
  split <;> exact ⟨rfl, rfl, rfl, rfl⟩

theorem fileHealthTestPcts_stable (h : FileHealth) :
    (fileHealthTestPcts h).hasRegression = h.hasRegression
    ∧ (fileHealthTestPcts h).coverageDelta = h.coverageDelta
    ∧ (fileHealthTestPcts h).changedCoveragePercentage = h.changedCoveragePercentage
    ∧ (fileHealthTestPcts h).baselineCoveragePercentage = h.baselineCoveragePercentage := by
  unfold fileHealthTestPcts
  try dsimp only
  split <;> exact ⟨rfl, rfl, rfl, rfl⟩

theorem fileHealthBaseline_fields (root fp : String) (lines : List Int) (br : Report)
    (thr : ℚ) (h : FileHealth) (hnew : h.isNewFile = false)
    (hres : resolveRecord br root fp ≠ none) :
    (fileHealthBaseline root fp lines (some br) thr h).changedCoveragePercentage
        = h.changedCoveragePercentage
    ∧ (fileHealthBaseline root fp lines (some br) thr h).coverageDelta
        = (fileHealthBaseline root fp lines (some br) thr h).changedCoveragePercentage
          - (fileHealthBaseline root fp lines (some br) thr h).baselineCoveragePercentage
    ∧ (fileHealthBaseline root fp lines (some br) thr h).hasRegression
        = (decide ((fileHealthBaseline root fp lines (some br) thr h).coverageDelta < 0)
            && decide ((fileHealthBaseline root fp lines (some br) thr h).changedCoveragePercentage
                < thr)) := by
  unfold fileHealthBaseline
  dsimp only
  rw [hnew]
  cases hr : resolveRecord br root fp with
  | none => exact absurd hr hres
  | some dd =>
    rw [if_neg (by decide : ¬ (false = true))]
    dsimp only
    split <;> exact ⟨rfl, rfl, rfl⟩

/-- The stage decomposition of `analyzeFileHealth`. -/
theorem analyzeFileHealth_decomp (root fp : String) (lines : List Int) (diff : ParseResult)
    (trs : List TestCoverageReport) (b : Option Report) (thr : ℚ) :
    analyzeFileHealth root fp lines diff trs b thr
      = (let h6 := fileHealthTestPcts (fileHealthBaseline root fp lines b thr
            (fileHealthCurPct (lines.foldl (fileHealthStep root fp (AggregateCoverage trs)
                (resolveRecord (AggregateCoverage trs) root fp).isSome trs)
              { fileHealthOverall (resolveRecord (AggregateCoverage trs) root fp)
                  { filePath := fp, isNewFile := fp ∈ diff.newFiles } with
                changedLines := (lines.length : Int) })))
         { h6 with needsAttention :=
             decide (h6.changedCoveragePercentage < thr) || h6.hasRegression }) := rfl

/-- C3 (confirmed): for a modified file whose record resolves in the
supplied baseline, the regression flag is exactly
"(current − baseline) < 0 AND current < threshold" over the same
changed-line set; zero delta is never flagged, nor is a drop whose
current coverage is at or above the threshold; needs-attention is
exactly "below threshold or regressing". -/
theorem health_regression_spec (root fp : String) (lines : List Int) (diff : ParseResult)
    (trs : List TestCoverageReport) (br : Report) (thr : ℚ)
    (hnew : fp ∉ diff.newFiles)
    (hres : resolveRecord br root fp ≠ none) :
    (analyzeFileHealth root fp lines diff trs (some br) thr).hasRegression
        = (decide ((analyzeFileHealth root fp lines diff trs (some br) thr).coverageDelta < 0)
            && decide ((analyzeFileHealth root fp lines diff trs (some br)
                thr).changedCoveragePercentage < thr))
    ∧ (analyzeFileHealth root fp lines diff trs (some br) thr).coverageDelta
        = (analyzeFileHealth root fp lines diff trs (some br) thr).changedCoveragePercentage
          - (analyzeFileHealth root fp lines diff trs (some br) thr).baselineCoveragePercentage
    ∧ ((analyzeFileHealth root fp lines diff trs (some br) thr).coverageDelta = 0 →
        (analyzeFileHealth root fp lines diff trs (some br) thr).hasRegression = false)
    ∧ (thr ≤ (analyzeFileHealth root fp lines diff trs (some br) thr).changedCoveragePercentage →
        (analyzeFileHealth root fp lines diff trs (some br) thr).hasRegression = false)
    ∧ (analyzeFileHealth root fp lines diff trs (some br) thr).needsAttention
        = (decide ((analyzeFileHealth root fp lines diff trs (some br)
              thr).changedCoveragePercentage < thr)
            || (analyzeFileHealth root fp lines diff trs (some br) thr).hasRegression) := by
  have hd := analyzeFileHealth_decomp root fp lines diff trs (some br) thr
  dsimp only at hd
  set h4 := fileHealthCurPct (lines.foldl (fileHealthStep root fp (AggregateCoverage trs)
      (resolveRecord (AggregateCoverage trs) root fp).isSome trs)
    { fileHealthOverall (resolveRecord (AggregateCoverage trs) root fp)
        { filePath := fp, isNewFile := fp ∈ diff.newFiles } with
      changedLines := (lines.length : Int) }) with hh4
  set h5 := fileHealthBaseline root fp lines (some br) thr h4 with hh5
  set h6 := fileHealthTestPcts h5 with hh6
  have hnew4 : h4.isNewFile = false := by
    rw [hh4, (fileHealthCurPct_stable _).2.2.2]
    rw [foldl_pres (fun x : FileHealth => x.isNewFile) _ lines _
      (fun a x => (fileHealthStep_stable root fp (AggregateCoverage trs)
        (resolveRecord (AggregateCoverage trs) root fp).isSome trs a x).2.2.2.2.1)]
    show (fileHealthOverall (resolveRecord (AggregateCoverage trs) root fp)
        { filePath := fp, isNewFile := fp ∈ diff.newFiles }).isNewFile = false
    rw [(fileHealthOverall_stable _ _).2.2.2.2]
    simpa using hnew
  obtain ⟨b1, b2, b3⟩ := fileHealthBaseline_fields root fp lines br thr h4 hnew4 hres
  rw [← hh5] at b1 b2 b3
  obtain ⟨t1, t2, t3, t4⟩ := fileHealthTestPcts_stable h5
  rw [← hh6] at t1 t2 t3 t4
  have hH1 : (analyzeFileHealth root fp lines diff trs (some br) thr).hasRegression
      = h6.hasRegression := by rw [hd]
  have hH2 : (analyzeFileHealth root fp lines diff trs (some br) thr).coverageDelta
      = h6.coverageDelta := by rw [hd]
  have hH3 : (analyzeFileHealth root fp lines diff trs (some br) thr).changedCoveragePercentage
      = h6.changedCoveragePercentage := by rw [hd]
  have hH4 : (analyzeFileHealth root fp lines diff trs (some br) thr).baselineCoveragePercentage
      = h6.baselineCoveragePercentage := by rw [hd]
  have hH5 : (analyzeFileHealth root fp lines diff trs (some br) thr).needsAttention
      = (decide (h6.changedCoveragePercentage < thr) || h6.hasRegression) := by rw [hd]
  refine ⟨?_, ?_, ?_, ?_, ?_⟩
  · rw [hH1, hH2, hH3, t1, t2, t3, b3]
  · rw [hH2, hH3, hH4, t2, t3, t4, b2]
  · intro hz
    rw [hH2, t2] at hz
    rw [hH1, t1, b3, hz]
    simp
  · intro hge
    rw [hH3, t3] at hge
    rw [hH1, t1, b3]
    have : decide (h5.changedCoveragePercentage < thr) = false := by
      simp only [decide_eq_false_iff_not, not_lt]
      exact hge
    rw [this, Bool.and_false]
  · rw [hH5, hH1, hH3, t1, t3]

/-- Concrete modified-file diff and coverage for the C3 witness:
changed lines {6, 7}, line 6 covered in both current and baseline. -/
def dH : ParseResult :=
  { changedLines := [("f", [6, 7])], addedLines := [("f", [6, 7])], modifiedFiles := ["f"] }

/-- Coverage record covering line 6 of "f". -/
def covH : Report := ⟨[("f", { lineHits := [(6, 1)], totalLines := 2, coveredLines := 1 })]⟩

/-- C3 witness: the regression-flag characterization applied at a
concrete modified file with a resolving baseline. -/
theorem health_regression_spec_witness :
    ("f" ∉ dH.newFiles ∧ resolveRecord covH "" "f" ≠ none)
    ∧ ((analyzeFileHealth "" "f" [6, 7] dH [⟨.unit, some covH⟩] (some covH) 80).hasRegression
        = (decide ((analyzeFileHealth "" "f" [6, 7] dH [⟨.unit, some covH⟩]
              (some covH) 80).coverageDelta < 0)
            && decide ((analyzeFileHealth "" "f" [6, 7] dH [⟨.unit, some covH⟩]
                (some covH) 80).changedCoveragePercentage < 80))
       ∧ ((analyzeFileHealth "" "f" [6, 7] dH [⟨.unit, some covH⟩] (some covH) 80).coverageDelta
            = 0 →
          (analyzeFileHealth "" "f" [6, 7] dH [⟨.unit, some covH⟩] (some covH) 80).hasRegression
            = false)) :=
  ⟨⟨by decide, by decide⟩,
   (health_regression_spec "" "f" [6, 7] dH [⟨.unit, some covH⟩] covH 80
      (by decide) (by decide)).1,
   (health_regression_spec "" "f" [6, 7] dH [⟨.unit, some covH⟩] covH 80
      (by decide) (by decide)).2.2.1⟩

/-- C9 witness: the error-condition characterization applied at
concrete inputs. -/
theorem analysis_error_conditions_witness :
    resolveRecord ({} : Report) "" "f" = none
    ∧ ((analyzeFile "" "f" [5] {} none false).coveredLines = 0
        ∧ (analyzeFile "" "f" [5] {} none false).uncoveredLines
            = (analyzeFile "" "f" [5] {} none false).totalChangedLines
        ∧ (analyzeFile "" "f" [5] {} none false).coveragePercentage = 0)
    ∧ (5 : Int) ∈ (analyzeFile "" "f" [5] {} none false).uncoveredLineNumbers :=
  ⟨by decide,
   analysis_error_conditions.2.2.2.1 "" "f" [5] {} none false (by decide),
   analysis_error_conditions.2.2.2.2 "" "f" [5] {} none false 5 (by decide) (by decide)
     (by decide)⟩

/-! ### C6: detector priority (DetectCoverageFormat) -/

/-- Taking the first `n` characters is idempotent. -/
theorem takeS_idem (d : String) (n : Nat) : takeS (takeS d n) n = takeS d n := by
  unfold takeS
  apply congrArg
  show (String.mk (d.toList.take n)).toList.take n = d.toList.take n
  rw [show (String.mk (d.toList.take n)).toList = d.toList.take n from rfl,
    List.take_take, min_self]

/-- C6 (amended): the detector inspects only the first 1000 characters
of the artifact, and applies this priority order: (a) Cobertura XML
markers (XML/root element, a "cobertura"/"coverage" keyword, and a
package/class group element), then (b) LCOV file+data markers, then
(c) the Go `mode:` declaration, then (d) the `.out` file-extension
hint, then (e) default to `"lcov"`.  Contrary to the spec, the
structured (Cobertura) check precedes the line-record (LCOV) check;
see the counterexample. -/
theorem detect_format_priority (fp data : String) :
    DetectCoverageFormat fp data = DetectCoverageFormat fp (takeS data 1000)
    ∧ (((startsWithS (trimS (takeS data 1000)) "<?xml"
          || containsStr (takeS data 1000) "<coverage")
        && (containsStr (takeS data 1000) "cobertura"
          || containsStr (takeS data 1000) "coverage")
        && (containsStr (takeS data 1000) "<package"
          || containsStr (takeS data 1000) "<class")) = true
      → DetectCoverageFormat fp data = "cobertura")
    ∧ (((startsWithS (trimS (takeS data 1000)) "<?xml"
          || containsStr (takeS data 1000) "<coverage")
        && (containsStr (takeS data 1000) "cobertura"
          || containsStr (takeS data 1000) "coverage")
        && (containsStr (takeS data 1000) "<package"
          || containsStr (takeS data 1000) "<class")) = false
      → (startsWithS (trimS (takeS data 1000)) "TN:"
          || startsWithS (trimS (takeS data 1000)) "SF:"
          || (containsStr (takeS data 1000) "SF:"
            && containsStr (takeS data 1000) "DA:")) = true
      → DetectCoverageFormat fp data = "lcov")
    ∧ (((startsWithS (trimS (takeS data 1000)) "<?xml"
          || containsStr (takeS data 1000) "<coverage")
        && (containsStr (takeS data 1000) "cobertura"
          || containsStr (takeS data 1000) "coverage")
        && (containsStr (takeS data 1000) "<package"
          || containsStr (takeS data 1000) "<class")) = false
      → (startsWithS (trimS (takeS data 1000)) "TN:"
          || startsWithS (trimS (takeS data 1000)) "SF:"
          || (containsStr (takeS data 1000) "SF:"
            && containsStr (takeS data 1000) "DA:")) = false
      → startsWithS (trimS (takeS data 1000)) "mode:" = true
      → DetectCoverageFormat fp data = "go")
    ∧ (((startsWithS (trimS (takeS data 1000)) "<?xml"
          || containsStr (takeS data 1000) "<coverage")
        && (containsStr (takeS data 1000) "cobertura"
          || containsStr (takeS data 1000) "coverage")
        && (containsStr (takeS data 1000) "<package"
          || containsStr (takeS data 1000) "<class")) = false
      → (startsWithS (trimS (takeS data 1000)) "TN:"
          || startsWithS (trimS (takeS data 1000)) "SF:"
          || (containsStr (takeS data 1000) "SF:"
            && containsStr (takeS data 1000) "DA:")) = false
      → startsWithS (trimS (takeS data 1000)) "mode:" = false
      → (decide (filepathExt fp = ".out") && !containsStr (takeS data 1000) "SF:"
          && !containsStr (takeS data 1000) "TN:") = true
      → DetectCoverageFormat fp data = "go")
    ∧ (((startsWithS (trimS (takeS data 1000)) "<?xml"
          || containsStr (takeS data 1000) "<coverage")
        && (containsStr (takeS data 1000) "cobertura"
          || containsStr (takeS data 1000) "coverage")
        && (containsStr (takeS data 1000) "<package"
          || containsStr (takeS data 1000) "<class")) = false
      → (startsWithS (trimS (takeS data 1000)) "TN:"
          || startsWithS (trimS (takeS data 1000)) "SF:"
          || (containsStr (takeS data 1000) "SF:"
            && containsStr (takeS data 1000) "DA:")) = false
      → startsWithS (trimS (takeS data 1000)) "mode:" = false
      → (decide (filepathExt fp = ".out") && !containsStr (takeS data 1000) "SF:"
          && !containsStr (takeS data 1000) "TN:") = false
      → DetectCoverageFormat fp data = "lcov") := by
  unfold DetectCoverageFormat
  dsimp only
  rw [takeS_idem]
  refine ⟨rfl, ?_, ?_, ?_, ?_, ?_⟩
  · intro h1
    simp [h1]
  · intro h1 h2
    simp [h1, h2]
  · intro h1 h2 h3
    simp [h1, h2, h3]
  · intro h1 h2 h3 h4
    simp [h1, h2, h3, h4]
  · intro h1 h2 h3 h4
    simp [h1, h2, h3, h4]

/-- C6 witness: the priority characterization applied at concrete
inputs hitting each branch. -/
theorem detect_format_priority_witness :
    DetectCoverageFormat "c.xml" "<coverage><package></package></coverage>" = "cobertura"
    ∧ DetectCoverageFormat "l.info" "TN:test" = "lcov"
    ∧ DetectCoverageFormat "p.out" "mode: set" = "go"
    ∧ DetectCoverageFormat "p.out" "garbage" = "go"
    ∧ DetectCoverageFormat "x.txt" "garbage" = "lcov" :=
  ⟨(detect_format_priority "c.xml" "<coverage><package></package></coverage>").2.1
      (by decide),
   (detect_format_priority "l.info" "TN:test").2.2.1 (by decide) (by decide),
   (detect_format_priority "p.out" "mode: set").2.2.2.1 (by decide) (by decide) (by decide),
   (detect_format_priority "p.out" "garbage").2.2.2.2.1 (by decide) (by decide)
      (by decide) (by decide),
   (detect_format_priority "x.txt" "garbage").2.2.2.2.2 (by decide) (by decide)
      (by decide) (by decide)⟩

/-- C6 counterexample: an artifact whose inspected prefix contains both
the LCOV file+data markers and Cobertura markers is classified
"cobertura", not "lcov": the structured check runs first, refuting the
spec's stated priority. -/
theorem detect_format_priority_counterexample :
    (containsStr "SF:f.go\nDA:1,1\n<coverage><package></package></coverage>" "SF:"
      && containsStr "SF:f.go\nDA:1,1\n<coverage><package></package></coverage>" "DA:")
      = true
    ∧ DetectCoverageFormat "cov.info"
        "SF:f.go\nDA:1,1\n<coverage><package></package></coverage>" = "cobertura" := by
  exact ⟨by decide, by decide⟩

/-! ### C5: gocov per-line accounting (parseGoCoverageText) -/

/-- C5 (code bug): a line overlapped by several ranges is NOT always
counted once toward `TotalLines`.  `wasAlreadySeen` probes the stored
hit count, but a range with count 0 stores nothing, so a line first
seen in a count-0 range is counted again by every later range that
contains it.  On the input below, line 2 lies in both ranges and
`TotalLines` comes out 4, although the ranges contain only 3 distinct
lines (1, 2, 3). -/
theorem gocov_overlap_total_overcount :
    ((parseGoCoverageText
        ["mode: set", "f.go:1.0,2.0 0 1", "f.go:2.0,3.0 0 1"]).toOption.bind
      (fun r => (getCoverageForFile r "f.go").map (fun d => d.totalLines))) = some 4
    ∧ (intRange 1 2 ++ intRange 2 3).toFinset.card = 3 :=
  ⟨by decide, by decide⟩

/-! ### C8: record invariants of the parsers and the aggregator -/

/-- Predicate preservation through a left fold. -/
theorem foldl_inv {α β : Type} (P : α → Prop) (step : α → β → α) (l : List β) (a : α)
    (hstep : ∀ a x, P a → P (step a x)) (ha : P a) : P (l.foldl step a) := by
  induction l generalizing a with
  | nil => exact ha
  | cons x xs ih => exact ih (step a x) (hstep a x ha)

/-- A per-record predicate survives `setFile` when the written record
satisfies it. -/
theorem setFile_entries_pres (r : Report) (f : String) (d : CoverageData)
    (P : CoverageData → Prop) (h : ∀ p ∈ r.fileCoverage, P p.2) (hd : P d) :
    ∀ p ∈ (setFile r f d).fileCoverage, P p.2 := by
  intro p hp
  rcases mem_updA r.fileCoverage f d p hp with he | he
  · rw [he]; exact hd
  · exact h p he

/-- A per-record predicate survives `modFile` when the mutation
preserves it. -/
theorem modFile_entries_pres (r : Report) (f : String) (g : CoverageData → CoverageData)
    (P : CoverageData → Prop) (h : ∀ p ∈ r.fileCoverage, P p.2)
    (hg : ∀ d, P d → P (g d)) :
    ∀ p ∈ (modFile r f g).fileCoverage, P p.2 := by
  unfold modFile
  cases hf : findA r.fileCoverage f with
  | none => exact h
  | some d =>
    exact setFile_entries_pres r f (g d) P h (hg d (h (f, d) (findA_mem _ _ _ hf)))

/-- Each `ParseLCOV` scan step keeps `0 ≤ CoveredLines ≤ TotalLines`
in every record of the report. -/
theorem lcovLine_recWF (st : LcovState) (raw : String)
    (h : ∀ p ∈ st.report.fileCoverage,
      0 ≤ p.2.coveredLines ∧ p.2.coveredLines ≤ p.2.totalLines) :
    ∀ p ∈ (lcovLine st raw).report.fileCoverage,
      0 ≤ p.2.coveredLines ∧ p.2.coveredLines ≤ p.2.totalLines := by
  unfold lcovLine
  dsimp only
  split
  · exact h
  split
  · exact setFile_entries_pres _ _ _
      (fun d => 0 ≤ d.coveredLines ∧ d.coveredLines ≤ d.totalLines) h
      ⟨by decide, by decide⟩
  split
  · exact h
  split
  · split
    · exact h
    · split
      · refine modFile_entries_pres _ _ _
          (fun d => 0 ≤ d.coveredLines ∧ d.coveredLines ≤ d.totalLines) h ?_
        intro d hd
        obtain ⟨h1, h2⟩ := hd
        refine ⟨?_, ?_⟩ <;> dsimp only <;> split <;> omega
      · exact h
  split
  · exact h
  · exact h

/-- Every record produced by `ParseLCOV` satisfies
`0 ≤ CoveredLines ≤ TotalLines`. -/
theorem ParseLCOV_recWF (lines : List String) :
    ∀ p ∈ (ParseLCOV lines).fileCoverage,
      0 ≤ p.2.coveredLines ∧ p.2.coveredLines ≤ p.2.totalLines := by
  unfold ParseLCOV
  exact foldl_inv (fun st => ∀ p ∈ st.report.fileCoverage,
      0 ≤ p.2.coveredLines ∧ p.2.coveredLines ≤ p.2.totalLines)
    lcovLine lines {} (fun st raw hst => lcovLine_recWF st raw hst)
    (fun p hp => absurd hp (by simp))

/-- Lift a per-record predicate to the record fetched (or freshly
created) for a file. -/
theorem getD_entries (rep : Report) (fp : String) (P : CoverageData → Prop)
    (h : ∀ p ∈ rep.fileCoverage, P p.2) (hP : P {}) :
    P ((getCoverageForFile rep fp).getD {}) := by
  cases hf : getCoverageForFile rep fp with
  | none => exact hP
  | some d => exact h (fp, d) (findA_mem _ _ _ hf)

/-- `cobAddLine` keeps `0 ≤ CoveredLines ≤ TotalLines`. -/
theorem cobAddLine_recWF (cl : Bool) (d : CoverageData) (ln : CobLine)
    (hd : 0 ≤ d.coveredLines ∧ d.coveredLines ≤ d.totalLines) :
    0 ≤ (cobAddLine cl d ln).coveredLines
      ∧ (cobAddLine cl d ln).coveredLines ≤ (cobAddLine cl d ln).totalLines := by
  obtain ⟨h1, h2⟩ := hd
  unfold cobAddLine
  split
  · refine ⟨?_, ?_⟩ <;> dsimp only <;> split <;> omega
  · exact ⟨h1, h2⟩

/-- `cobAddClass` keeps `0 ≤ CoveredLines ≤ TotalLines` in every
record of the report. -/
theorem cobAddClass_recWF (stat : String → Bool) (root : String) (sps : List String)
    (rep : Report) (cls : CobClass)
    (h : ∀ p ∈ rep.fileCoverage,
      0 ≤ p.2.coveredLines ∧ p.2.coveredLines ≤ p.2.totalLines) :
    ∀ p ∈ (cobAddClass stat root sps rep cls).fileCoverage,
      0 ≤ p.2.coveredLines ∧ p.2.coveredLines ≤ p.2.totalLines := by
  unfold cobAddClass
  dsimp only
  refine setFile_entries_pres _ _ _
    (fun d => 0 ≤ d.coveredLines ∧ d.coveredLines ≤ d.totalLines) h ?_
  refine foldl_inv _ _ _ _
    (fun d m hd => foldl_inv _ _ _ _ (fun d ln hd => cobAddLine_recWF false d ln hd) hd) ?_
  refine foldl_inv _ _ _ _ (fun d ln hd => cobAddLine_recWF true d ln hd) ?_
  exact getD_entries rep _
    (fun d => 0 ≤ d.coveredLines ∧ d.coveredLines ≤ d.totalLines) h ⟨by decide, by decide⟩

/-- Every record produced by `ParseCobertura` satisfies
`0 ≤ CoveredLines ≤ TotalLines`. -/
theorem ParseCobertura_recWF (stat : String → Bool) (root : String) (cob : CobCoverage) :
    ∀ p ∈ (ParseCobertura stat root cob).fileCoverage,
      0 ≤ p.2.coveredLines ∧ p.2.coveredLines ≤ p.2.totalLines := by
  unfold ParseCobertura
  refine foldl_inv (fun (rep : Report) => ∀ p ∈ rep.fileCoverage,
      0 ≤ p.2.coveredLines ∧ p.2.coveredLines ≤ p.2.totalLines) _ _ _ ?_
    (fun p hp => absurd hp (by simp))
  intro rep pkg hrep
  exact foldl_inv _ _ _ _ (fun r c hr => cobAddClass_recWF stat root cob.sources r c hr) hrep

/-- A positive-hits map has a positive lookup at present keys. -/
theorem lookupHit_pos (m : LineHits) (ln : Int)
    (hpos : ∀ l v, findA m l = some v → 0 < v) (hl : hasLine m ln = true) :
    lookupHit m ln > 0 := by
  unfold hasLine at hl
  unfold lookupHit
  cases hf : findA m ln with
  | none => rw [hf] at hl; simp at hl
  | some v => exact hpos ln v hf

/-- Lookup at an absent key is 0. -/
theorem lookupHit_zero (m : LineHits) (ln : Int) (hl : hasLine m ln = false) :
    lookupHit m ln = 0 := by
  unfold hasLine at hl
  unfold lookupHit
  cases hf : findA m ln with
  | none => rfl
  | some v => rw [hf] at hl; simp at hl

/-- A positive-hits map has nonnegative lookups. -/
theorem lookupHit_nonneg (m : LineHits) (l : Int)
    (h : ∀ l v, findA m l = some v → 0 < v) : 0 ≤ lookupHit m l := by
  unfold lookupHit
  cases hf : findA m l with
  | none => exact le_refl 0
  | some v => exact le_of_lt (h l v hf)

/-- `goCovMarkLine` keeps both record invariants: bounds on the
counters and positivity of every stored hit. -/
theorem goCovMarkLine_inv (count : Int) (d : CoverageData) (ln : Int)
    (hd : (0 ≤ d.coveredLines ∧ d.coveredLines ≤ d.totalLines)
      ∧ ∀ l v, findA d.lineHits l = some v → 0 < v) :
    (0 ≤ (goCovMarkLine count d ln).coveredLines
      ∧ (goCovMarkLine count d ln).coveredLines ≤ (goCovMarkLine count d ln).totalLines)
    ∧ ∀ l v, findA (goCovMarkLine count d ln).lineHits l = some v → 0 < v := by
  obtain ⟨⟨h1, h2⟩, hpos⟩ := hd
  unfold goCovMarkLine
  dsimp only
  by_cases hc : count > 0
  · rw [if_pos hc]
    by_cases hl : hasLine d.lineHits ln = true
    · rw [if_pos hl]
      have hw : lookupHit d.lineHits ln > 0 := lookupHit_pos d.lineHits ln hpos hl
      rw [decide_eq_true hw]
      rw [if_neg (by decide : ¬ ((!true) = true))]
      by_cases hgt : count > lookupHit d.lineHits ln
      · rw [if_pos hgt]
        refine ⟨⟨h1, h2⟩, ?_⟩
        intro l v hv
        have hv2 : findA (updA d.lineHits ln count) l = some v := hv
        rw [findA_updA] at hv2
        split at hv2
        · simp only [Option.some.injEq] at hv2
          subst hv2
          exact hc
        · exact hpos l v hv2
      · rw [if_neg hgt]
        exact ⟨⟨h1, h2⟩, hpos⟩
    · have hl2 : hasLine d.lineHits ln = false := by
        revert hl; cases hasLine d.lineHits ln <;> simp
      rw [if_neg hl]
      have hz : lookupHit d.lineHits ln = 0 := lookupHit_zero d.lineHits ln hl2
      rw [hz]
      rw [if_pos (by decide : (!decide ((0:Int) > 0)) = true)]
      refine ⟨⟨?_, ?_⟩, ?_⟩
      · dsimp only; omega
      · dsimp only; omega
      · intro l v hv
        have hv2 : findA (updA d.lineHits ln count) l = some v := hv
        rw [findA_updA] at hv2
        split at hv2
        · simp only [Option.some.injEq] at hv2
          subst hv2
          exact hc
        · exact hpos l v hv2
  · rw [if_neg hc]
    split
    · exact ⟨⟨h1, by dsimp only; omega⟩, hpos⟩
    · exact ⟨⟨h1, h2⟩, hpos⟩

/-- Each `parseGoCoverageText` scan step keeps both record invariants
in every record of the report. -/
theorem goCovLine_inv (st : GoCovState) (raw : String)
    (h : ∀ p ∈ st.report.fileCoverage,
      (0 ≤ p.2.coveredLines ∧ p.2.coveredLines ≤ p.2.totalLines)
      ∧ ∀ l v, findA p.2.lineHits l = some v → 0 < v) :
    ∀ p ∈ (goCovLine st raw).report.fileCoverage,
      (0 ≤ p.2.coveredLines ∧ p.2.coveredLines ≤ p.2.totalLines)
      ∧ ∀ l v, findA p.2.lineHits l = some v → 0 < v := by
  unfold goCovLine
  dsimp only
  repeat' split
  all_goals try exact h
  refine setFile_entries_pres _ _ _
    (fun d => (0 ≤ d.coveredLines ∧ d.coveredLines ≤ d.totalLines)
      ∧ ∀ l v, findA d.lineHits l = some v → 0 < v) h ?_
  refine foldl_inv _ _ _ _ (fun d ln hd => goCovMarkLine_inv _ d ln hd) ?_
  refine getD_entries st.report _
    (fun d => (0 ≤ d.coveredLines ∧ d.coveredLines ≤ d.totalLines)
      ∧ ∀ l v, findA d.lineHits l = some v → 0 < v) h ?_
  refine ⟨⟨le_refl 0, le_refl 0⟩, ?_⟩
  intro l v hv
  rw [show ({} : CoverageData).lineHits = [] from rfl, findA_nil] at hv
  exact Option.noConfusion hv

/-- Every record in a report returned by `parseGoCoverageText`
satisfies both invariants. -/
theorem parseGoCoverageText_inv (lines : List String) (r : Report)
    (hok : parseGoCoverageText lines = .ok r) :
    ∀ p ∈ r.fileCoverage,
      (0 ≤ p.2.coveredLines ∧ p.2.coveredLines ≤ p.2.totalLines)
      ∧ ∀ l v, findA p.2.lineHits l = some v → 0 < v := by
  have hfold : ∀ p ∈ (lines.foldl goCovLine {}).report.fileCoverage,
      (0 ≤ p.2.coveredLines ∧ p.2.coveredLines ≤ p.2.totalLines)
      ∧ ∀ l v, findA p.2.lineHits l = some v → 0 < v :=
    foldl_inv (fun (st : GoCovState) => ∀ p ∈ st.report.fileCoverage,
        (0 ≤ p.2.coveredLines ∧ p.2.coveredLines ≤ p.2.totalLines)
        ∧ ∀ l v, findA p.2.lineHits l = some v → 0 < v)
      goCovLine lines {} (fun st raw hst => goCovLine_inv st raw hst)
      (fun p hp => absurd hp (by simp))
  unfold parseGoCoverageText at hok
  dsimp only at hok
  split at hok
  · exact Except.noConfusion hok
  · injection hok with he
    subst he
    exact hfold

/-- `mergeLineHit` keeps every stored hit positive. -/
theorem mergeLineHit_pos (agg : CoverageData) (p : Int × Int)
    (h : ∀ l v, findA agg.lineHits l = some v → 0 < v) :
    ∀ l v, findA (mergeLineHit agg p).lineHits l = some v → 0 < v := by
  unfold mergeLineHit
  dsimp only
  split
  · intro l v hv
    have hv2 : findA (updA agg.lineHits p.1 p.2) l = some v := hv
    rw [findA_updA] at hv2
    split at hv2
    · simp only [Option.some.injEq] at hv2
      subst hv2
      have := lookupHit_nonneg agg.lineHits p.1 h
      omega
    · exact h l v hv2
  · exact h

/-- `mergeFileCoverage` keeps every stored hit positive. -/
theorem mergeFileCoverage_pos (agg fc : CoverageData)
    (h : ∀ l v, findA agg.lineHits l = some v → 0 < v) :
    ∀ l v, findA (mergeFileCoverage agg fc).lineHits l = some v → 0 < v := by
  unfold mergeFileCoverage
  dsimp only
  exact foldl_inv (fun d => ∀ l v, findA d.lineHits l = some v → 0 < v)
    mergeLineHit fc.lineHits agg (fun a x ha => mergeLineHit_pos a x ha) h

/-- `aggregateOne` keeps every stored hit positive in every record. -/
theorem aggregateOne_pos (agg : Report) (tr : TestCoverageReport)
    (h : ∀ p ∈ agg.fileCoverage, ∀ l v, findA p.2.lineHits l = some v → 0 < v) :
    ∀ p ∈ (aggregateOne agg tr).fileCoverage,
      ∀ l v, findA p.2.lineHits l = some v → 0 < v := by
  unfold aggregateOne
  split
  · exact h
  · refine foldl_inv (fun (r : Report) => ∀ p ∈ r.fileCoverage,
        ∀ l v, findA p.2.lineHits l = some v → 0 < v) _ _ _ ?_ h
    intro r q hr
    refine setFile_entries_pres _ _ _
      (fun d => ∀ l v, findA d.lineHits l = some v → 0 < v) hr ?_
    refine mergeFileCoverage_pos _ _ ?_
    refine getD_entries r _
      (fun d => ∀ l v, findA d.lineHits l = some v → 0 < v) hr ?_
    intro l v hv
    rw [show ({} : CoverageData).lineHits = [] from rfl, findA_nil] at hv
    exact Option.noConfusion hv

/-- Every merged record of `AggregateCoverage` stores only positive
hit counts. -/
theorem AggregateCoverage_pos (reports : List TestCoverageReport) :
    ∀ p ∈ (AggregateCoverage reports).fileCoverage,
      ∀ l v, findA p.2.lineHits l = some v → 0 < v := by
  unfold AggregateCoverage
  exact foldl_inv (fun (r : Report) => ∀ p ∈ r.fileCoverage,
      ∀ l v, findA p.2.lineHits l = some v → 0 < v)
    aggregateOne reports {} (fun a x ha => aggregateOne_pos a x ha)
    (fun p hp => absurd hp (by simp))

/-- C8 (amended): every record produced by the three parsers satisfies
`0 ≤ CoveredLines ≤ TotalLines`; every per-line hit stored by the
tool-native parser and by `AggregateCoverage` is strictly positive.
The spec's remaining claims fail: `ParseLCOV` (and `ParseCobertura`)
store a negative `DA`/`hits` count verbatim, and an aggregated record
can have `CoveredLines > TotalLines` (the aggregator takes the last
suite's `TotalLines` but recounts `CoveredLines` over the merged map);
see the counterexample. -/
theorem coverage_record_invariants :
    (∀ (lines : List String) (f : String) (d : CoverageData),
        findA (ParseLCOV lines).fileCoverage f = some d →
        0 ≤ d.coveredLines ∧ d.coveredLines ≤ d.totalLines)
    ∧ (∀ (stat : String → Bool) (root : String) (cob : CobCoverage)
          (f : String) (d : CoverageData),
        findA (ParseCobertura stat root cob).fileCoverage f = some d →
        0 ≤ d.coveredLines ∧ d.coveredLines ≤ d.totalLines)
    ∧ (∀ (lines : List String) (r : Report) (f : String) (d : CoverageData),
        parseGoCoverageText lines = .ok r →
        findA r.fileCoverage f = some d →
        (0 ≤ d.coveredLines ∧ d.coveredLines ≤ d.totalLines)
        ∧ ∀ (ln h : Int), findA d.lineHits ln = some h → 0 < h)
    ∧ (∀ (reports : List TestCoverageReport) (f : String) (d : CoverageData),
        findA (AggregateCoverage reports).fileCoverage f = some d →
        ∀ (ln h : Int), findA d.lineHits ln = some h → 0 < h) := by
  refine ⟨?_, ?_, ?_, ?_⟩
  · intro lines f d hd
    exact ParseLCOV_recWF lines (f, d) (findA_mem _ _ _ hd)
  · intro stat root cob f d hd
    exact ParseCobertura_recWF stat root cob (f, d) (findA_mem _ _ _ hd)
  · intro lines r f d hok hd
    exact parseGoCoverageText_inv lines r hok (f, d) (findA_mem _ _ _ hd)
  · intro reports f d hd
    exact AggregateCoverage_pos reports (f, d) (findA_mem _ _ _ hd)

/-- C8 witness: the invariants applied to one concrete record of each
producer. -/
theorem coverage_record_invariants_witness :
    (0 ≤ (⟨[((3:Int), (2:Int))], 1, 1⟩ : CoverageData).coveredLines
      ∧ (⟨[((3:Int), (2:Int))], 1, 1⟩ : CoverageData).coveredLines
          ≤ (⟨[((3:Int), (2:Int))], 1, 1⟩ : CoverageData).totalLines)
    ∧ (0 ≤ (⟨[((1:Int), (1:Int))], 1, 1⟩ : CoverageData).coveredLines
      ∧ (⟨[((1:Int), (1:Int))], 1, 1⟩ : CoverageData).coveredLines
          ≤ (⟨[((1:Int), (1:Int))], 1, 1⟩ : CoverageData).totalLines)
    ∧ (0 ≤ (⟨[((1:Int), (2:Int))], 1, 1⟩ : CoverageData).coveredLines
      ∧ (⟨[((1:Int), (2:Int))], 1, 1⟩ : CoverageData).coveredLines
          ≤ (⟨[((1:Int), (2:Int))], 1, 1⟩ : CoverageData).totalLines)
    ∧ 0 < (2 : Int)
    ∧ 0 < (3 : Int) :=
  ⟨coverage_record_invariants.1 ["SF:f", "DA:3,2", "end_of_record"] "f"
      ⟨[(3, 2)], 1, 1⟩ (by decide),
   coverage_record_invariants.2.1 (fun _ => false) ""
      ⟨[], [⟨[⟨"f", [], [⟨1, 1⟩]⟩]⟩]⟩ "f" ⟨[(1, 1)], 1, 1⟩ (by decide),
   (coverage_record_invariants.2.2.1 ["mode: set", "f.go:1.0,1.0 2 1"]
      ⟨[("f.go", ⟨[(1, 2)], 1, 1⟩)]⟩ "f.go" ⟨[(1, 2)], 1, 1⟩ rfl (by decide)).1,
   (coverage_record_invariants.2.2.1 ["mode: set", "f.go:1.0,1.0 2 1"]
      ⟨[("f.go", ⟨[(1, 2)], 1, 1⟩)]⟩ "f.go" ⟨[(1, 2)], 1, 1⟩ rfl (by decide)).2
      1 2 (by decide),
   coverage_record_invariants.2.2.2
      [⟨.unit, some ⟨[("f", ⟨[(1, 3)], 1, 1⟩)]⟩⟩] "f" ⟨[(1, 3)], 1, 1⟩
      (by decide) 1 3 (by decide)⟩

/-- C8 counterexample: `ParseLCOV` stores the negative hit count of
`DA:10,-5` verbatim, and aggregating a suite that covers two lines
with a later suite reporting `TotalLines = 0` for the same file yields
a record with `CoveredLines = 2 > 0 = TotalLines`. -/
theorem coverage_record_invariants_counterexample :
    getCoverageForLine (ParseLCOV ["SF:f", "DA:10,-5", "end_of_record"]) "f" 10 = -5
    ∧ ((getCoverageForFile (AggregateCoverage
          [⟨.unit, some ⟨[("f", ⟨[(1, 1), (2, 1)], 2, 2⟩)]⟩⟩,
           ⟨.api, some ⟨[("f", ⟨[], 0, 0⟩)]⟩⟩]) "f").map
        (fun d => (d.coveredLines, d.totalLines))) = some (2, 0) :=
  ⟨by decide, by decide⟩

/-! ### C2: order (in)dependence of AggregateCoverage -/

/-- The per-file body of `aggregateOne`'s inner loop. -/
def mergeStep (agg : Report) (q : String × CoverageData) : Report :=
  setFile agg q.1 (mergeFileCoverage ((getCoverageForFile agg q.1).getD {}) q.2)

/-- `aggregateOne` is the inner loop folded over the suite's files. -/
theorem aggregateOne_eq (agg : Report) (tr : TestCoverageReport) :
    aggregateOne agg tr = match tr.coverageReport with
      | none => agg
      | some rep => rep.fileCoverage.foldl mergeStep agg := by
  cases tr with
  | mk tt cov => cases cov <;> rfl

/-- Lookup after a map write. -/
theorem lookupHit_updA (m : LineHits) (k v k' : Int) :
    lookupHit (updA m k v) k' = if k' = k then v else lookupHit m k' := by
  unfold lookupHit
  rw [findA_updA]
  by_cases h : k' = k
  · rw [if_pos h, if_pos h]
  · rw [if_neg h, if_neg h]

/-- With only positive hits stored, every per-line read of a report is
nonnegative. -/
theorem getCoverageForLine_nonneg (r : Report)
    (hr : ∀ p ∈ r.fileCoverage, ∀ l v, findA p.2.lineHits l = some v → 0 < v)
    (f : String) (ln : Int) : 0 ≤ getCoverageForLine r f ln := by
  unfold getCoverageForLine
  cases hf : getCoverageForFile r f with
  | none => exact le_refl 0
  | some d => exact lookupHit_nonneg d.lineHits ln (hr (f, d) (findA_mem _ _ _ hf))

/-- One merge step reads as a pointwise maximum. -/
theorem mergeLineHit_lookup (agg : CoverageData) (p : Int × Int) (ln : Int) :
    lookupHit (mergeLineHit agg p).lineHits ln
      = if ln = p.1 then max (lookupHit agg.lineHits ln) p.2
        else lookupHit agg.lineHits ln := by
  unfold mergeLineHit setHit
  dsimp only
  by_cases hgt : p.2 > lookupHit agg.lineHits p.1
  · rw [if_pos hgt]
    dsimp only
    rw [lookupHit_updA]
    by_cases h : ln = p.1
    · rw [if_pos h, if_pos h, h, max_eq_right (le_of_lt hgt)]
    · rw [if_neg h, if_neg h]
  · rw [if_neg hgt]
    by_cases h : ln = p.1
    · rw [if_pos h, h, max_eq_left (le_of_not_lt hgt)]
    · rw [if_neg h]

/-- Folding `mergeLineHit` over a duplicate-free hit list reads as the
maximum of the previous value and that list's entry. -/
theorem merge_fold_lookup (es : LineHits) (ln : Int)
    (hnd : (es.map Prod.fst).Nodup) :
    ∀ d : CoverageData, 0 ≤ lookupHit d.lineHits ln →
      lookupHit ((es.foldl mergeLineHit d).lineHits) ln
        = max (lookupHit d.lineHits ln) (lookupHit es ln) := by
  induction es with
  | nil =>
    intro d hnn
    rw [List.foldl_nil, show lookupHit ([] : LineHits) ln = 0 from rfl, max_eq_left hnn]
  | cons p es ih =>
    intro d hnn
    have hnd2 := hnd
    simp only [List.map_cons, List.nodup_cons] at hnd2
    obtain ⟨hp1, hp2⟩ := hnd2
    have hnn2 : 0 ≤ lookupHit (mergeLineHit d p).lineHits ln := by
      rw [mergeLineHit_lookup]
      by_cases h : ln = p.1
      · rw [if_pos h]
        exact le_trans hnn (le_max_left _ _)
      · rw [if_neg h]
        exact hnn
    rw [List.foldl_cons, ih hp2 (mergeLineHit d p) hnn2, mergeLineHit_lookup]
    by_cases h : ln = p.1
    · rw [if_pos h]
      have hes0 : lookupHit es ln = 0 := by
        unfold lookupHit
        rw [findA_map_fst_none es ln (by rw [h]; exact hp1)]
      have hcons : lookupHit (p :: es) ln = p.2 := by
        unfold lookupHit
        rw [findA_cons, if_pos h.symm]
      rw [hes0, hcons, max_eq_left (le_trans hnn (le_max_left _ _))]
    · rw [if_neg h]
      have hcons : lookupHit (p :: es) ln = lookupHit es ln := by
        unfold lookupHit
        rw [findA_cons, if_neg (fun hh => h hh.symm)]
      rw [hcons]

/-- `mergeStep` preserves positivity of all stored hits. -/
theorem mergeStep_pos (agg : Report) (q : String × CoverageData)
    (h : ∀ p ∈ agg.fileCoverage, ∀ l v, findA p.2.lineHits l = some v → 0 < v) :
    ∀ p ∈ (mergeStep agg q).fileCoverage,
      ∀ l v, findA p.2.lineHits l = some v → 0 < v := by
  unfold mergeStep
  refine setFile_entries_pres _ _ _
    (fun d => ∀ l v, findA d.lineHits l = some v → 0 < v) h ?_
  refine mergeFileCoverage_pos _ _ ?_
  refine getD_entries agg _ (fun d => ∀ l v, findA d.lineHits l = some v → 0 < v) h ?_
  intro l v hv
  rw [show ({} : CoverageData).lineHits = [] from rfl, findA_nil] at hv
  exact Option.noConfusion hv

/-- File lookup after `setFile`. -/
theorem getCoverageForFile_setFile (r : Report) (f : String) (d : CoverageData)
    (g : String) :
    getCoverageForFile (setFile r f d) g = if g = f then some d else getCoverageForFile r g := by
  unfold getCoverageForFile setFile
  dsimp only
  exact findA_updA r.fileCoverage f g d

/-- Line lookup through a resolved record. -/
theorem getCoverageForLine_eq_of_file (r : Report) (f : String) (d : CoverageData)
    (h : getCoverageForFile r f = some d) (ln : Int) :
    getCoverageForLine r f ln = lookupHit d.lineHits ln := by
  unfold getCoverageForLine
  rw [h]

/-- The fetched-or-fresh record reads like the report itself. -/
theorem getD_lookup (agg : Report) (f : String) (ln : Int) :
    lookupHit ((getCoverageForFile agg f).getD {}).lineHits ln
      = getCoverageForLine agg f ln := by
  unfold getCoverageForLine
  cases hf : getCoverageForFile agg f <;> rfl

/-- `mergeFileCoverage` reads as a pointwise maximum. -/
theorem mergeFileCoverage_lookup (aggFc fc : CoverageData) (ln : Int)
    (hnd : (fc.lineHits.map Prod.fst).Nodup) (hnn : 0 ≤ lookupHit aggFc.lineHits ln) :
    lookupHit (mergeFileCoverage aggFc fc).lineHits ln
      = max (lookupHit aggFc.lineHits ln) (lookupHit fc.lineHits ln) := by
  unfold mergeFileCoverage
  dsimp only
  exact merge_fold_lookup fc.lineHits ln hnd aggFc hnn

/-- One file-merge step of the aggregator reads as a pointwise
maximum on the merged file and leaves other files unchanged. -/
theorem mergeStep_lookup (agg : Report) (q : String × CoverageData) (f : String) (ln : Int)
    (hpos : ∀ p ∈ agg.fileCoverage, ∀ l v, findA p.2.lineHits l = some v → 0 < v)
    (hndq : (q.2.lineHits.map Prod.fst).Nodup) :
    getCoverageForLine (mergeStep agg q) f ln
      = if f = q.1 then max (getCoverageForLine agg f ln) (lookupHit q.2.lineHits ln)
        else getCoverageForLine agg f ln := by
  unfold mergeStep
  by_cases h : f = q.1
  · rw [if_pos h, h]
    rw [getCoverageForLine_eq_of_file _ _ _
      (by rw [getCoverageForFile_setFile]; exact if_pos rfl) ln]
    rw [mergeFileCoverage_lookup _ _ _ hndq
      (by rw [getD_lookup]; exact getCoverageForLine_nonneg agg hpos q.1 ln)]
    rw [getD_lookup]
  · rw [if_neg h]
    unfold getCoverageForLine
    rw [getCoverageForFile_setFile, if_neg h]

/-- Folding the aggregator's per-file merge over one suite's files
reads as a pointwise maximum with that suite. -/
theorem suite_fold_lookup (es : List (String × CoverageData)) (f : String) (ln : Int)
    (hkeys : (es.map Prod.fst).Nodup)
    (hnd : ∀ q ∈ es, (q.2.lineHits.map Prod.fst).Nodup) :
    ∀ agg : Report,
      (∀ p ∈ agg.fileCoverage, ∀ l v, findA p.2.lineHits l = some v → 0 < v) →
      getCoverageForLine (es.foldl mergeStep agg) f ln
        = max (getCoverageForLine agg f ln) (getCoverageForLine ⟨es⟩ f ln) := by
  induction es with
  | nil =>
    intro agg hpos
    rw [List.foldl_nil, show getCoverageForLine (⟨[]⟩ : Report) f ln = 0 from rfl,
      max_eq_left (getCoverageForLine_nonneg agg hpos f ln)]
  | cons q es ih =>
    intro agg hpos
    have hkeys2 := hkeys
    simp only [List.map_cons, List.nodup_cons] at hkeys2
    obtain ⟨hk1, hk2⟩ := hkeys2
    rw [List.foldl_cons]
    rw [ih hk2 (fun p hp => hnd p (List.mem_cons_of_mem _ hp))
      (mergeStep agg q) (mergeStep_pos agg q hpos)]
    rw [mergeStep_lookup agg q f ln hpos (hnd q (List.mem_cons_self q es))]
    by_cases h : f = q.1
    · rw [if_pos h]
      have hes0 : getCoverageForLine (⟨es⟩ : Report) f ln = 0 := by
        unfold getCoverageForLine getCoverageForFile
        dsimp only
        rw [findA_map_fst_none es f (by rw [h]; exact hk1)]
      have hqc : getCoverageForLine (⟨q :: es⟩ : Report) f ln
          = lookupHit q.2.lineHits ln := by
        unfold getCoverageForLine getCoverageForFile
        dsimp only
        rw [findA_cons, if_pos h.symm]
      rw [hes0, hqc,
        max_eq_left (le_trans (getCoverageForLine_nonneg agg hpos f ln) (le_max_left _ _))]
    · rw [if_neg h]
      have hqc : getCoverageForLine (⟨q :: es⟩ : Report) f ln
          = getCoverageForLine (⟨es⟩ : Report) f ln := by
        unfold getCoverageForLine getCoverageForFile
        dsimp only
        rw [findA_cons, if_neg (fun hh => h hh.symm)]
      rw [hqc]

/-- One whole suite merges as a pointwise maximum. -/
theorem aggregateOne_lookup (agg : Report) (tr : TestCoverageReport) (f : String) (ln : Int)
    (hpos : ∀ p ∈ agg.fileCoverage, ∀ l v, findA p.2.lineHits l = some v → 0 < v)
    (hwf : ((tr.coverageReport.getD {}).fileCoverage.map Prod.fst).Nodup
      ∧ ∀ q ∈ (tr.coverageReport.getD {}).fileCoverage,
          (q.2.lineHits.map Prod.fst).Nodup) :
    getCoverageForLine (aggregateOne agg tr) f ln
      = max (getCoverageForLine agg f ln)
          (match tr.coverageReport with
           | none => 0
           | some rep => getCoverageForLine rep f ln) := by
  rw [aggregateOne_eq]
  cases hc : tr.coverageReport with
  | none =>
    rw [max_eq_left (getCoverageForLine_nonneg agg hpos f ln)]
  | some rep =>
    rw [hc] at hwf
    have := suite_fold_lookup rep.fileCoverage f ln hwf.1 hwf.2 agg hpos
    rw [this, show (⟨rep.fileCoverage⟩ : Report) = rep from rfl]

/-- The aggregation fold reads as an iterated maximum over the
suites, for any starting report with positive hits. -/
theorem AC_fold_lookup (reports : List TestCoverageReport) (f : String) (ln : Int) :
    (∀ tr ∈ reports, ((tr.coverageReport.getD {}).fileCoverage.map Prod.fst).Nodup
      ∧ ∀ q ∈ (tr.coverageReport.getD {}).fileCoverage,
          (q.2.lineHits.map Prod.fst).Nodup) →
    ∀ agg : Report,
      (∀ p ∈ agg.fileCoverage, ∀ l v, findA p.2.lineHits l = some v → 0 < v) →
      getCoverageForLine (reports.foldl aggregateOne agg) f ln
        = reports.foldl (fun a tr => max a (match tr.coverageReport with
            | none => 0
            | some rep => getCoverageForLine rep f ln))
            (getCoverageForLine agg f ln) := by
  induction reports with
  | nil => intro _ agg _; rfl
  | cons tr rest ih =>
    intro hwf agg hpos
    rw [List.foldl_cons, List.foldl_cons,
      ih (fun t ht => hwf t (List.mem_cons_of_mem _ ht))
        (aggregateOne agg tr) (aggregateOne_pos agg tr hpos),
      aggregateOne_lookup agg tr f ln hpos (hwf tr (List.mem_cons_self tr rest))]

/-- `AggregateCoverage` reads as the maximum per-line hit across the
suites. -/
theorem AC_lookup (reports : List TestCoverageReport) (f : String) (ln : Int)
    (hwf : ∀ tr ∈ reports, ((tr.coverageReport.getD {}).fileCoverage.map Prod.fst).Nodup
      ∧ ∀ q ∈ (tr.coverageReport.getD {}).fileCoverage,
          (q.2.lineHits.map Prod.fst).Nodup) :
    getCoverageForLine (AggregateCoverage reports) f ln
      = reports.foldl (fun a tr => max a (match tr.coverageReport with
          | none => 0
          | some rep => getCoverageForLine rep f ln)) 0 := by
  unfold AggregateCoverage
  rw [AC_fold_lookup reports f ln hwf {} (fun p hp => absurd hp (by simp)),
    show getCoverageForLine ({} : Report) f ln = 0 from rfl]

/-- An iterated binary maximum is invariant under permutation. -/
theorem perm_foldl_max {β : Type} (g : β → Int) {l1 l2 : List β} (hp : l1.Perm l2) :
    ∀ a : Int, l1.foldl (fun a x => max a (g x)) a = l2.foldl (fun a x => max a (g x)) a := by
  induction hp with
  | nil => intro a; rfl
  | cons x _ ih => intro a; rw [List.foldl_cons, List.foldl_cons, ih]
  | swap x y l =>
    intro a
    rw [List.foldl_cons, List.foldl_cons, List.foldl_cons, List.foldl_cons,
      max_assoc, max_comm (g y) (g x), ← max_assoc]
  | trans _ _ ih1 ih2 => intro a; rw [ih1, ih2]

/-- `List.any` is invariant under permutation. -/
theorem perm_any {β : Type} (g : β → Bool) {l1 l2 : List β} (hp : l1.Perm l2) :
    l1.any g = l2.any g := by
  induction hp with
  | nil => rfl
  | cons x _ ih => rw [List.any_cons, List.any_cons, ih]
  | swap x y l =>
    rw [List.any_cons, List.any_cons, List.any_cons, List.any_cons,
      ← Bool.or_assoc, ← Bool.or_assoc, Bool.or_comm (g y) (g x)]
  | trans _ _ ih1 ih2 => rw [ih1, ih2]

/-- File presence after one aggregator file-merge step. -/
theorem mergeStep_isSome (agg : Report) (q : String × CoverageData) (f : String) :
    (getCoverageForFile (mergeStep agg q) f).isSome
      = if f = q.1 then true else (getCoverageForFile agg f).isSome := by
  unfold mergeStep
  rw [getCoverageForFile_setFile]
  by_cases h : f = q.1
  · rw [if_pos h, if_pos h]
    rfl
  · rw [if_neg h, if_neg h]

/-- File presence after merging one suite's files. -/
theorem suite_fold_isSome (es : List (String × CoverageData)) (f : String) :
    ∀ agg : Report,
      (getCoverageForFile (es.foldl mergeStep agg) f).isSome
        = ((getCoverageForFile agg f).isSome || (getCoverageForFile ⟨es⟩ f).isSome) := by
  induction es with
  | nil =>
    intro agg
    rw [List.foldl_nil,
      show (getCoverageForFile (⟨[]⟩ : Report) f).isSome = false from rfl, Bool.or_false]
  | cons q es ih =>
    intro agg
    rw [List.foldl_cons, ih (mergeStep agg q), mergeStep_isSome]
    by_cases h : f = q.1
    · rw [if_pos h]
      have hq : (getCoverageForFile (⟨q :: es⟩ : Report) f).isSome = true := by
        unfold getCoverageForFile
        dsimp only
        rw [findA_cons, if_pos h.symm]
        rfl
      rw [hq]
      simp
    · rw [if_neg h]
      have hq : (getCoverageForFile (⟨q :: es⟩ : Report) f).isSome
          = (getCoverageForFile (⟨es⟩ : Report) f).isSome := by
        unfold getCoverageForFile
        dsimp only
        rw [findA_cons, if_neg (fun hh => h hh.symm)]
      rw [hq]

/-- File presence after merging one whole suite. -/
theorem aggregateOne_isSome (agg : Report) (tr : TestCoverageReport) (f : String) :
    (getCoverageForFile (aggregateOne agg tr) f).isSome
      = ((getCoverageForFile agg f).isSome
         || (match tr.coverageReport with
             | none => false
             | some rep => (getCoverageForFile rep f).isSome)) := by
  rw [aggregateOne_eq]
  cases hc : tr.coverageReport with
  | none => rw [Bool.or_false]
  | some rep =>
    rw [suite_fold_isSome rep.fileCoverage f agg,
      show (⟨rep.fileCoverage⟩ : Report) = rep from rfl]

/-- A file is present in the aggregate iff some suite mentions it. -/
theorem AC_isSome (reports : List TestCoverageReport) (f : String) :
    (getCoverageForFile (AggregateCoverage reports) f).isSome
      = reports.any (fun tr => match tr.coverageReport with
          | none => false
          | some rep => (getCoverageForFile rep f).isSome) := by
  unfold AggregateCoverage
  suffices hgen : ∀ agg : Report,
      (getCoverageForFile (reports.foldl aggregateOne agg) f).isSome
        = ((getCoverageForFile agg f).isSome
           || reports.any (fun tr => match tr.coverageReport with
               | none => false
               | some rep => (getCoverageForFile rep f).isSome)) by
    rw [hgen {},
      show (getCoverageForFile ({} : Report) f).isSome = false from rfl, Bool.false_or]
  induction reports with
  | nil => intro agg; rw [List.foldl_nil, List.any_nil, Bool.or_false]
  | cons tr rest ih =>
    intro agg
    rw [List.foldl_cons, List.any_cons, ih (aggregateOne agg tr),
      aggregateOne_isSome, Bool.or_assoc]

/-- A map write keeps the keys duplicate-free. -/
theorem updA_keys_nodup {κ α : Type} [BEq κ] [LawfulBEq κ] [DecidableEq κ]
    (m : List (κ × α)) (k : κ) (v : α) (h : (m.map Prod.fst).Nodup) :
    ((updA m k v).map Prod.fst).Nodup := by
  induction m with
  | nil => simp [updA]
  | cons p rest ih =>
    simp only [List.map_cons, List.nodup_cons] at h
    by_cases hpk : p.1 = k
    · rw [updA_cons_eq, if_pos hpk]
      simp only [List.map_cons, List.nodup_cons]
      exact ⟨by rw [← hpk]; exact h.1, h.2⟩
    · rw [updA_cons_eq, if_neg hpk]
      simp only [List.map_cons, List.nodup_cons]
      refine ⟨?_, ih h.2⟩
      intro hmem
      rcases List.mem_map.mp hmem with ⟨e, he, hfst⟩
      rcases mem_updA rest k v e he with he2 | he2
      · exact hpk (by rw [he2] at hfst; exact hfst.symm)
      · exact h.1 (by rw [← hfst]; exact List.mem_map_of_mem Prod.fst he2)

/-- `mergeLineHit` keeps the hit-map keys duplicate-free. -/
theorem mergeLineHit_nodup (agg : CoverageData) (p : Int × Int)
    (h : (agg.lineHits.map Prod.fst).Nodup) :
    ((mergeLineHit agg p).lineHits.map Prod.fst).Nodup := by
  unfold mergeLineHit setHit
  dsimp only
  split
  · exact updA_keys_nodup agg.lineHits p.1 p.2 h
  · exact h

/-- With positive values and duplicate-free keys, `countCovered` is
the number of entries. -/
theorem countCovered_eq_length (m : LineHits)
    (hp : ∀ l v, findA m l = some v → 0 < v) (hnd : (m.map Prod.fst).Nodup) :
    countCovered m = (m.length : Int) := by
  unfold countCovered
  rw [List.filter_eq_self.mpr ?pos]
  case pos =>
    intro p hp2
    exact decide_eq_true (hp p.1 p.2 (findA_of_nodup_mem m p.1 p.2 hnd hp2))

/-- With positive values and duplicate-free keys, a key is present
iff its lookup is positive. -/
theorem mem_keys_iff_lookup_pos (m : LineHits)
    (hp : ∀ l v, findA m l = some v → 0 < v) (hnd : (m.map Prod.fst).Nodup) (k : Int) :
    k ∈ m.map Prod.fst ↔ 0 < lookupHit m k := by
  constructor
  · intro hk
    rcases List.mem_map.mp hk with ⟨e, he, hfst⟩
    have hf : findA m e.1 = some e.2 := findA_of_nodup_mem m e.1 e.2 hnd he
    rw [← hfst]
    unfold lookupHit
    rw [hf]
    exact hp e.1 e.2 hf
  · intro hk
    by_contra hmem
    have hn : findA m k = none := findA_map_fst_none m k hmem
    unfold lookupHit at hk
    rw [hn] at hk
    exact absurd hk (by decide)

/-- Two positive, duplicate-free hit maps with the same lookups have
the same number of entries. -/
theorem length_eq_of_lookup_eq (m1 m2 : LineHits)
    (h1 : (m1.map Prod.fst).Nodup) (h2 : (m2.map Prod.fst).Nodup)
    (hp1 : ∀ l v, findA m1 l = some v → 0 < v)
    (hp2 : ∀ l v, findA m2 l = some v → 0 < v)
    (hl : ∀ k, lookupHit m1 k = lookupHit m2 k) : m1.length = m2.length := by
  have e1 : (m1.map Prod.fst).toFinset = (m2.map Prod.fst).toFinset := by
    ext k
    simp only [List.mem_toFinset]
    rw [mem_keys_iff_lookup_pos m1 hp1 h1 k, mem_keys_iff_lookup_pos m2 hp2 h2 k, hl k]
  have hc := congrArg Finset.card e1
  rw [List.toFinset_card_of_nodup h1, List.toFinset_card_of_nodup h2] at hc
  simpa using hc

/-- `mergeStep` keeps each record's hit keys duplicate-free and its
`CoveredLines` equal to the recount over its own map. -/
theorem mergeStep_ccnd (agg : Report) (q : String × CoverageData)
    (h : ∀ p ∈ agg.fileCoverage, (p.2.lineHits.map Prod.fst).Nodup
      ∧ p.2.coveredLines = countCovered p.2.lineHits) :
    ∀ p ∈ (mergeStep agg q).fileCoverage, (p.2.lineHits.map Prod.fst).Nodup
      ∧ p.2.coveredLines = countCovered p.2.lineHits := by
  unfold mergeStep
  refine setFile_entries_pres _ _ _
    (fun d => (d.lineHits.map Prod.fst).Nodup
      ∧ d.coveredLines = countCovered d.lineHits) h ?_
  constructor
  · unfold mergeFileCoverage
    dsimp only
    refine foldl_inv (fun (d : CoverageData) => (d.lineHits.map Prod.fst).Nodup)
      mergeLineHit q.2.lineHits _ (fun a x ha => mergeLineHit_nodup a x ha) ?_
    exact getD_entries agg q.1 (fun d => (d.lineHits.map Prod.fst).Nodup)
      (fun p hp => (h p hp).1) (by simp)
  · rfl

/-- `aggregateOne` keeps the same per-record invariant. -/
theorem aggregateOne_ccnd (agg : Report) (tr : TestCoverageReport)
    (h : ∀ p ∈ agg.fileCoverage, (p.2.lineHits.map Prod.fst).Nodup
      ∧ p.2.coveredLines = countCovered p.2.lineHits) :
    ∀ p ∈ (aggregateOne agg tr).fileCoverage, (p.2.lineHits.map Prod.fst).Nodup
      ∧ p.2.coveredLines = countCovered p.2.lineHits := by
  rw [aggregateOne_eq]
  cases hc : tr.coverageReport with
  | none => exact h
  | some rep =>
    exact foldl_inv (fun (r : Report) => ∀ p ∈ r.fileCoverage,
        (p.2.lineHits.map Prod.fst).Nodup
        ∧ p.2.coveredLines = countCovered p.2.lineHits)
      mergeStep rep.fileCoverage agg (fun a x ha => mergeStep_ccnd a x ha) h

/-- Every aggregated record has duplicate-free hit keys and a
`CoveredLines` equal to the recount over its own map. -/
theorem AC_ccnd (reports : List TestCoverageReport) :
    ∀ p ∈ (AggregateCoverage reports).fileCoverage,
      (p.2.lineHits.map Prod.fst).Nodup
      ∧ p.2.coveredLines = countCovered p.2.lineHits := by
  unfold AggregateCoverage
  exact foldl_inv (fun (r : Report) => ∀ p ∈ r.fileCoverage,
      (p.2.lineHits.map Prod.fst).Nodup
      ∧ p.2.coveredLines = countCovered p.2.lineHits)
    aggregateOne reports {} (fun a x ha => aggregateOne_ccnd a x ha)
    (fun p hp => absurd hp (by simp))

/-- C2 (amended): for suite lists whose reports are map-like
(duplicate-free file keys and per-file line keys), `AggregateCoverage`
is order-independent in its per-line reads (each merged hit is the
maximum across suites, clamped at 0), in file presence, and in
`CoveredLines` — but NOT in `TotalLines`, which takes the last
processed suite's figure (see the counterexample). -/
theorem aggregate_coverage_order (l1 l2 : List TestCoverageReport)
    (hperm : l1.Perm l2)
    (hwf : ∀ tr ∈ l1, ((tr.coverageReport.getD {}).fileCoverage.map Prod.fst).Nodup
      ∧ ∀ q ∈ (tr.coverageReport.getD {}).fileCoverage,
          (q.2.lineHits.map Prod.fst).Nodup) :
    (∀ (f : String) (ln : Int), getCoverageForLine (AggregateCoverage l1) f ln
        = l1.foldl (fun a tr => max a (match tr.coverageReport with
            | none => 0
            | some rep => getCoverageForLine rep f ln)) 0)
    ∧ (∀ (f : String) (ln : Int), getCoverageForLine (AggregateCoverage l1) f ln
        = getCoverageForLine (AggregateCoverage l2) f ln)
    ∧ (∀ f : String, (getCoverageForFile (AggregateCoverage l1) f).isSome
        = (getCoverageForFile (AggregateCoverage l2) f).isSome)
    ∧ (∀ (f : String) (d1 d2 : CoverageData),
        getCoverageForFile (AggregateCoverage l1) f = some d1 →
        getCoverageForFile (AggregateCoverage l2) f = some d2 →
        d1.coveredLines = d2.coveredLines) := by
  have hwf2 : ∀ tr ∈ l2, ((tr.coverageReport.getD {}).fileCoverage.map Prod.fst).Nodup
      ∧ ∀ q ∈ (tr.coverageReport.getD {}).fileCoverage,
          (q.2.lineHits.map Prod.fst).Nodup :=
    fun tr ht => hwf tr (hperm.mem_iff.mpr ht)
  refine ⟨?_, ?_, ?_, ?_⟩
  · intro f ln
    exact AC_lookup l1 f ln hwf
  · intro f ln
    rw [AC_lookup l1 f ln hwf, AC_lookup l2 f ln hwf2]
    exact perm_foldl_max (fun tr => match tr.coverageReport with
      | none => 0
      | some rep => getCoverageForLine rep f ln) hperm 0
  · intro f
    rw [AC_isSome l1 f, AC_isSome l2 f]
    exact perm_any _ hperm
  · intro f d1 d2 hd1 hd2
    have c1 := AC_ccnd l1 (f, d1) (findA_mem _ _ _ hd1)
    have c2 := AC_ccnd l2 (f, d2) (findA_mem _ _ _ hd2)
    have p1 := AggregateCoverage_pos l1 (f, d1) (findA_mem _ _ _ hd1)
    have p2 := AggregateCoverage_pos l2 (f, d2) (findA_mem _ _ _ hd2)
    have hlk : ∀ k, lookupHit d1.lineHits k = lookupHit d2.lineHits k := by
      intro k
      rw [← getCoverageForLine_eq_of_file _ _ _ hd1 k,
        ← getCoverageForLine_eq_of_file _ _ _ hd2 k,
        AC_lookup l1 f k hwf, AC_lookup l2 f k hwf2]
      exact perm_foldl_max _ hperm 0
    rw [c1.2, c2.2, countCovered_eq_length _ p1 c1.1, countCovered_eq_length _ p2 c2.1,
      length_eq_of_lookup_eq d1.lineHits d2.lineHits c1.1 c2.1 p1 p2 hlk]

/-- C2 witness: the order-independence statements applied to a
two-suite list and its swap. -/
theorem aggregate_coverage_order_witness :
    (getCoverageForLine (AggregateCoverage
        [⟨TestType.unit, some ⟨[("f", ⟨[(1, 2)], 1, 1⟩)]⟩⟩,
         ⟨TestType.api, some ⟨[("f", ⟨[(1, 3)], 1, 1⟩)]⟩⟩]) "f" 1
      = getCoverageForLine (AggregateCoverage
        [⟨TestType.api, some ⟨[("f", ⟨[(1, 3)], 1, 1⟩)]⟩⟩,
         ⟨TestType.unit, some ⟨[("f", ⟨[(1, 2)], 1, 1⟩)]⟩⟩]) "f" 1)
    ∧ ((getCoverageForFile (AggregateCoverage
        [⟨TestType.unit, some ⟨[("f", ⟨[(1, 2)], 1, 1⟩)]⟩⟩,
         ⟨TestType.api, some ⟨[("f", ⟨[(1, 3)], 1, 1⟩)]⟩⟩]) "g").isSome
      = (getCoverageForFile (AggregateCoverage
        [⟨TestType.api, some ⟨[("f", ⟨[(1, 3)], 1, 1⟩)]⟩⟩,
         ⟨TestType.unit, some ⟨[("f", ⟨[(1, 2)], 1, 1⟩)]⟩⟩]) "g").isSome)
    ∧ (⟨[(1, 3)], 1, 1⟩ : CoverageData).coveredLines
        = (⟨[(1, 3)], 1, 1⟩ : CoverageData).coveredLines :=
  ⟨(aggregate_coverage_order
      [⟨TestType.unit, some ⟨[("f", ⟨[(1, 2)], 1, 1⟩)]⟩⟩,
       ⟨TestType.api, some ⟨[("f", ⟨[(1, 3)], 1, 1⟩)]⟩⟩]
      [⟨TestType.api, some ⟨[("f", ⟨[(1, 3)], 1, 1⟩)]⟩⟩,
       ⟨TestType.unit, some ⟨[("f", ⟨[(1, 2)], 1, 1⟩)]⟩⟩]
      (List.Perm.swap _ _ _) (by decide)).2.1 "f" 1,
   (aggregate_coverage_order
      [⟨TestType.unit, some ⟨[("f", ⟨[(1, 2)], 1, 1⟩)]⟩⟩,
       ⟨TestType.api, some ⟨[("f", ⟨[(1, 3)], 1, 1⟩)]⟩⟩]
      [⟨TestType.api, some ⟨[("f", ⟨[(1, 3)], 1, 1⟩)]⟩⟩,
       ⟨TestType.unit, some ⟨[("f", ⟨[(1, 2)], 1, 1⟩)]⟩⟩]
      (List.Perm.swap _ _ _) (by decide)).2.2.1 "g",
   (aggregate_coverage_order
      [⟨TestType.unit, some ⟨[("f", ⟨[(1, 2)], 1, 1⟩)]⟩⟩,
       ⟨TestType.api, some ⟨[("f", ⟨[(1, 3)], 1, 1⟩)]⟩⟩]
      [⟨TestType.api, some ⟨[("f", ⟨[(1, 3)], 1, 1⟩)]⟩⟩,
       ⟨TestType.unit, some ⟨[("f", ⟨[(1, 2)], 1, 1⟩)]⟩⟩]
      (List.Perm.swap _ _ _) (by decide)).2.2.2 "f"
      ⟨[(1, 3)], 1, 1⟩ ⟨[(1, 3)], 1, 1⟩ (by decide) (by decide)⟩

/-- C2 counterexample: swapping two suites that report different
`TotalLines` figures for the same file changes the aggregated
`TotalLines` (last suite wins), so `AggregateCoverage` is not fully
order-independent. -/
theorem aggregate_coverage_order_counterexample :
    ([⟨TestType.unit, some ⟨[("f", ⟨[], 2, 0⟩)]⟩⟩,
      ⟨TestType.api, some ⟨[("f", ⟨[], 10, 0⟩)]⟩⟩] : List TestCoverageReport).Perm
      [⟨TestType.api, some ⟨[("f", ⟨[], 10, 0⟩)]⟩⟩,
       ⟨TestType.unit, some ⟨[("f", ⟨[], 2, 0⟩)]⟩⟩]
    ∧ (getCoverageForFile (AggregateCoverage
        [⟨TestType.unit, some ⟨[("f", ⟨[], 2, 0⟩)]⟩⟩,
         ⟨TestType.api, some ⟨[("f", ⟨[], 10, 0⟩)]⟩⟩]) "f").map (fun d => d.totalLines)
        = some 10
    ∧ (getCoverageForFile (AggregateCoverage
        [⟨TestType.api, some ⟨[("f", ⟨[], 10, 0⟩)]⟩⟩,
         ⟨TestType.unit, some ⟨[("f", ⟨[], 2, 0⟩)]⟩⟩]) "f").map (fun d => d.totalLines)
        = some 2 :=
  ⟨List.Perm.swap _ _ _, by decide, by decide⟩

end Difftron
